import Mathlib

/-!
# koinos-block-file: archive and replay of blocks

A shallow embedding of `cmd/koinos-block-file/main.go` and
`internal/rpc/koinos_rpc.go`, with the parts of the Go standard library the
two loops run on (`encoding/base64`, `bufio.Reader`), and the properties of
the block transfer pipeline proved about it.

Conventions.
* A byte is a `Fin 256`; a `[]byte` or a `string` of file data is a `List Byte`.
* `uint64` and `uint32` values are natural numbers, reduced modulo `2 ^ 64`
  where the program does arithmetic on them.
* A Go `error` is an `Option`: `none` is `nil`.
* Effects (log lines, remote calls, file writes) are recorded, in order, in the
  `events` of a `Run`; the way the goroutine ends is its `status`.
-/

namespace BlockFile

/-- One octet. -/
abbrev Byte := Fin 256

/-! ## `encoding/base64`: `StdEncoding` -/

namespace base64

/-- The alphabet of `StdEncoding`, `A-Z a-z 0-9 + /`, as the map from a
6-bit value to its character (`enc.encode[v]`). -/
def encode (v : Nat) : Byte :=
  if v < 26 then Fin.ofNat (65 + v)
  else if v < 52 then Fin.ofNat (97 + (v - 26))
  else if v < 62 then Fin.ofNat (48 + (v - 52))
  else if v = 62 then 43
  else 47

/-- The padding character `=` of `StdEncoding`. -/
def padChar : Byte := 61

/-- The inverse table `enc.decodeMap`: the 6-bit value of a character of the
alphabet, `none` (Go: `0xFF`) for every other byte. -/
def decodeMap (c : Byte) : Option Nat :=
  if 65 ≤ c.val ∧ c.val ≤ 90 then some (c.val - 65)
  else if 97 ≤ c.val ∧ c.val ≤ 122 then some (c.val - 97 + 26)
  else if 48 ≤ c.val ∧ c.val ≤ 57 then some (c.val - 48 + 52)
  else if c.val = 43 then some 62
  else if c.val = 47 then some 63
  else none

/-- `StdEncoding.EncodeToString`: three source bytes give four characters; a
remainder of one or two bytes gives two or three characters and `=` padding. -/
def EncodeToString : List Byte → List Byte
  | b0 :: b1 :: b2 :: rest =>
      let val := b0.val * 65536 + b1.val * 256 + b2.val
      encode (val / 262144 % 64) :: encode (val / 4096 % 64) :: encode (val / 64 % 64) ::
        encode (val % 64) :: EncodeToString rest
  | [b0, b1] =>
      let val := b0.val * 65536 + b1.val * 256
      [encode (val / 262144 % 64), encode (val / 4096 % 64), encode (val / 64 % 64), padChar]
  | [b0] =>
      let val := b0.val * 65536
      [encode (val / 262144 % 64), encode (val / 4096 % 64), padChar, padChar]
  | [] => []

/-- The text of a `base64.CorruptInputError`; the byte offset the Go message
carries is not modelled. -/
def corruptInput : String := "illegal base64 data"

/-- The quantum loop of `Encoding.decode` on input from which the ignored line
breaks have been removed: four characters give three bytes; padding is only
accepted as `xx==` or `xxx=` at the very end; an incomplete last quantum is
corrupt input (`StdEncoding` requires padding). -/
def decodeQuanta : List Byte → Except String (List Byte)
  | [] => .ok []
  | c0 :: c1 :: c2 :: c3 :: rest =>
      match decodeMap c0, decodeMap c1, decodeMap c2, decodeMap c3 with
      | some v0, some v1, some v2, some v3 =>
          let val := v0 * 262144 + v1 * 4096 + v2 * 64 + v3
          match decodeQuanta rest with
          | .ok out =>
              .ok (Fin.ofNat (val / 65536) :: Fin.ofNat (val / 256 % 256) ::
                Fin.ofNat (val % 256) :: out)
          | .error e => .error e
      | some v0, some v1, some v2, none =>
          if c3 = padChar ∧ rest = [] then
            let val := v0 * 262144 + v1 * 4096 + v2 * 64
            .ok [Fin.ofNat (val / 65536), Fin.ofNat (val / 256 % 256)]
          else .error corruptInput
      | some v0, some v1, none, _ =>
          if c2 = padChar ∧ c3 = padChar ∧ rest = [] then
            let val := v0 * 262144 + v1 * 4096
            .ok [Fin.ofNat (val / 65536)]
          else .error corruptInput
      | _, _, _, _ => .error corruptInput
  | _ => .error corruptInput

/-- `StdEncoding.DecodeString`: `\r` and `\n` are ignored wherever they stand,
the rest is decoded quantum by quantum. -/
def DecodeString (s : List Byte) : Except String (List Byte) :=
  decodeQuanta (s.filter fun c => c ≠ 10 ∧ c ≠ 13)

end base64

/-! ## `bufio.Reader` over the block file -/

/-- The error values a read can return: `io.EOF`, `bufio.ErrBufferFull`, or any
other error of the underlying file, with its text. -/
inductive ReadError where
  | EOF
  | ErrBufferFull
  | other (msg : String)
  deriving DecidableEq, Repr

/-- The text `err.Error()` of a read error. -/
def ReadError.Error : ReadError → String
  | .EOF => "EOF"
  | .ErrBufferFull => "bufio: buffer full"
  | .other msg => msg

/-- What the underlying `*os.File` delivers to successive `Read` calls, in
order: a byte of the file, or a failed read (no data, an error other than
`io.EOF`). After the last item every read returns `io.EOF`. -/
inductive ReadItem where
  | byte (b : Byte)
  | fail (msg : String)
  deriving DecidableEq, Repr

/-- The items of a file that is read without errors. -/
def fileBytes (content : List Byte) : List ReadItem :=
  content.map ReadItem.byte

/-- A `bufio.Reader`: the size of its buffer and what is still to be read
(buffered or not). -/
structure Reader where
  size : Nat
  src : List ReadItem
  deriving DecidableEq, Repr

/-- The constant `defaultBufSize` of package `bufio`. -/
def defaultBufSize : Nat := 4096

/-- The constant `minReadBufferSize` of package `bufio`. -/
def minReadBufferSize : Nat := 16

/-- `bufio.NewReaderSize`: a buffer of at least `minReadBufferSize` bytes. -/
def NewReaderSize (rd : List ReadItem) (size : Nat) : Reader :=
  { size := max size minReadBufferSize, src := rd }

/-- `bufio.NewReader`: a reader with the default buffer size. -/
def NewReader (rd : List ReadItem) : Reader :=
  NewReaderSize rd defaultBufSize

/-- The search of `Reader.ReadSlice` through a buffer with room for `room`
more bytes: the bytes up to and including the delimiter; or the bytes before a
failed read (or the end of the file) with that error; or a full buffer with
`ErrBufferFull`. Returns the slice, the error and what is left to read. -/
def readSliceAux (delim : Byte) : Nat → List ReadItem → (List Byte × Option ReadError) × List ReadItem
  | 0, src => (([], some .ErrBufferFull), src)
  | _ + 1, [] => (([], some .EOF), [])
  | _ + 1, .fail msg :: rest => (([], some (.other msg)), rest)
  | room + 1, .byte b :: rest =>
      if b = delim then (([b], none), rest)
      else
        match readSliceAux delim room rest with
        | ((line, err), rest1) => ((b :: line, err), rest1)

/-- `Reader.ReadSlice`. -/
def Reader.ReadSlice (b : Reader) (delim : Byte) : (List Byte × Option ReadError) × Reader :=
  match readSliceAux delim b.size b.src with
  | (res, rest) => (res, { b with src := rest })

/-- `Reader.ReadLine`: one line without its end-of-line bytes, or the first
part of a line too long for the buffer (`isPrefix`), or an error with no
data. A `\r` at the end of a full buffer is put back for the next call. -/
def Reader.ReadLine (b : Reader) : (List Byte × Bool × Option ReadError) × Reader :=
  match b.ReadSlice 10 with
  | ((line, some .ErrBufferFull), b1) =>
      if line.getLast? = some 13 then
        ((line.dropLast, true, none), { b1 with src := .byte 13 :: b1.src })
      else ((line, true, none), b1)
  | ((line, err), b1) =>
      if line.length = 0 then (([], false, err), b1)
      else if line.getLast? = some 10 then
        let drop := if 1 < line.length ∧ (line.dropLast).getLast? = some 13 then 2 else 1
        ((line.take (line.length - drop), false, none), b1)
      else ((line, false, none), b1)

/-- The loop of `readLine` (main.go): `ReadLine` is called, and its result
appended, as long as it reports a prefix and no error. `none` when the fuel
runs out. -/
def readLineLoop : Nat → Reader → List Byte → Option ((List Byte × Option ReadError) × Reader)
  | 0, _, _ => none
  | fuel + 1, r, ln =>
      match r.ReadLine with
      | ((line, isPrefix, err), r1) =>
          if isPrefix = true ∧ err = none then readLineLoop fuel r1 (ln ++ line)
          else some ((ln ++ line, err), r1)

/-- `readLine` (main.go): a whole line of the file, however long, and the error
of the last `ReadLine`. The fuel is enough for any reader with a buffer of two
bytes or more (`readLine_isSome`). -/
def readLine (r : Reader) : Option ((List Byte × Option ReadError) × Reader) :=
  readLineLoop (r.src.length + 1) r []

/-! ## Messages of the Koinos protocol

The types come from `koinos-proto-golang`; fields the program never reads are
left out. A message pointer that the program dereferences directly is an
`Option` (`none` is the nil pointer). -/

/-- `protocol.BlockHeader`. -/
structure BlockHeader where
  Previous : List Byte
  Height : Nat
  Timestamp : Nat
  deriving DecidableEq, Repr

/-- `protocol.Block`. `Header` is a pointer and `block.Header.Height` is a direct
field access, so a block without header is kept apart. -/
structure Block where
  Id : List Byte
  Header : Option BlockHeader
  Signature : List Byte
  deriving DecidableEq, Repr

/-- `block_store.BlockItem`. The block is only handed to `proto.Marshal`, for
which a nil message is the empty message, so it is not an `Option`. -/
structure BlockItem where
  BlockId : List Byte
  BlockHeight : Nat
  Block : Block
  deriving DecidableEq, Repr

/-- `block_store.GetBlocksByHeightResponse`. -/
structure GetBlocksByHeightResponse where
  BlockItems : List BlockItem
  deriving DecidableEq, Repr

/-- `chain.BlockTopology`. -/
structure BlockTopology where
  Id : List Byte
  Height : Nat
  Previous : List Byte
  deriving DecidableEq, Repr

/-- `chain.GetHeadInfoResponse`. -/
structure GetHeadInfoResponse where
  HeadTopology : Option BlockTopology
  LastIrreversibleBlock : Nat
  HeadStateMerkleRoot : List Byte
  HeadBlockTime : Nat
  deriving DecidableEq, Repr

/-- `chain.SubmitBlockResponse`. -/
structure SubmitBlockResponse where
  Receipt : List Byte
  deriving DecidableEq, Repr

/-- `rpc.ErrorStatus`: the message of a remote error and its structured payload. -/
structure ErrorStatus where
  Message : String
  Data : String
  deriving DecidableEq, Repr

/-- `chain.SubmitBlockRequest`. -/
structure SubmitBlockRequest where
  Block : Block
  deriving DecidableEq, Repr

/-- The `Request` of a `chain.ChainRequest`, for the variants the client builds. -/
inductive ChainRequest where
  | Reserved
  | SubmitBlock (req : SubmitBlockRequest)
  | GetHeadInfo
  deriving DecidableEq, Repr

/-- The populated variant of the `Response` of a `chain.ChainResponse`;
`other` stands for each variant the client has no case for, by field number. -/
inductive ChainResponse_Response where
  | Reserved
  | Error (e : ErrorStatus)
  | SubmitBlock (r : SubmitBlockResponse)
  | GetHeadInfo (r : GetHeadInfoResponse)
  | other (field : Nat)
  deriving DecidableEq, Repr

/-- `chain.ChainResponse`: `Response` is `none` when no variant is populated. -/
structure ChainResponse where
  Response : Option ChainResponse_Response
  deriving DecidableEq, Repr

/-- `block_store.GetBlocksByHeightRequest`. -/
structure GetBlocksByHeightRequest where
  HeadBlockId : List Byte
  AncestorStartHeight : Nat
  NumBlocks : Nat
  ReturnBlock : Bool
  ReturnReceipt : Bool
  deriving DecidableEq, Repr

/-- The `Request` of a `block_store.BlockStoreRequest`. -/
inductive BlockStoreRequest where
  | Reserved
  | GetBlocksByHeight (req : GetBlocksByHeightRequest)
  deriving DecidableEq, Repr

/-- The populated variant of the `Response` of a `block_store.BlockStoreResponse`. -/
inductive BlockStoreResponse_Response where
  | Reserved
  | Error (e : ErrorStatus)
  | GetBlocksByHeight (r : GetBlocksByHeightResponse)
  | other (field : Nat)
  deriving DecidableEq, Repr

/-- `block_store.BlockStoreResponse`. -/
structure BlockStoreResponse where
  Response : Option BlockStoreResponse_Response
  deriving DecidableEq, Repr

/-- The struct `chainError` of koinos_rpc.go: the JSON payload of a chain error. -/
structure chainError where
  Code : Int
  deriving DecidableEq, Repr

/-! ## The libraries and the world around the program -/

/-- The library functions and constants the program is linked with, as
parameters: `proto.Marshal` and `proto.Unmarshal` at the message types used,
`json.Unmarshal` into a `chainError` (given the payload and the value of the
struct before the call, it returns the struct after the call and the error),
and the two error codes of `koinos/chain` that `ApplyBlock` names. -/
structure Deps where
  marshalBlock : Block → Except String (List Byte)
  unmarshalBlock : List Byte → Except String Block
  marshalChainRequest : ChainRequest → Except String (List Byte)
  unmarshalChainResponse : List Byte → Except String ChainResponse
  marshalBlockStoreRequest : BlockStoreRequest → Except String (List Byte)
  unmarshalBlockStoreResponse : List Byte → Except String BlockStoreResponse
  jsonUnmarshal : String → chainError → chainError × Option String
  ErrorCode_unknown_previous_block : Int
  ErrorCode_pre_irreversibility_block : Int

/-- An error returned by `koinosmq.Client.RPC`: whether
`errors.Is(err, context.DeadlineExceeded)` holds, and its text. -/
structure RPCError where
  isDeadlineExceeded : Bool
  text : String
  deriving DecidableEq, Repr

/-- `koinosmq.Client`: what `RPC(ctx, contentType, rpcType, data)` returns. The
context of a call is identified by the number of remote calls the loop has
made before it, so that the same request can be answered differently at
different times. -/
structure Client where
  RPC : Nat → String → String → List Byte → Except RPCError (List Byte)

/-- RPC service constant `ChainRPC`. -/
def ChainRPC : String := "chain"

/-- RPC service constant `BlockStoreRPC`. -/
def BlockStoreRPC : String := "block_store"

/-- `KoinosRPC`: the client that talks to the node over AMQP. -/
structure KoinosRPC where
  mq : Client

/-- `NewKoinosRPC`. -/
def NewKoinosRPC (mq : Client) : KoinosRPC :=
  { mq := mq }

/-- `rpc.JsonRPC`, the client for the JSON-RPC transport. Its source is not part
of the files at hand; its three methods, which return the same pairs as those
of `KoinosRPC`, are parameters. -/
structure JsonRPC where
  ApplyBlock : Nat → Block → Option SubmitBlockResponse × Option String
  GetBlocksByHeight : Nat → List Byte → Nat → Nat →
    Option GetBlocksByHeightResponse × Option String
  GetHeadInfo : Nat → Option GetHeadInfoResponse × Option String

/-- `KoinosRPC.ApplyBlock`. -/
def KoinosRPC.ApplyBlock (k : KoinosRPC) (d : Deps) (ctx : Nat) (block : Block) :
    Option SubmitBlockResponse × Option String :=
  let args := ChainRequest.SubmitBlock { Block := block }
  match d.marshalChainRequest args with
  | .error err => (none, some ("error serializing ApplyBlock, " ++ err))
  | .ok data =>
    match k.mq.RPC ctx "application/octet-stream" ChainRPC data with
    | .error err =>
        if err.isDeadlineExceeded then (none, some ("rpc timeout ApplyBlock, " ++ err.text))
        else (none, some ("error local rpc ApplyBlock, " ++ err.text))
    | .ok responseBytes =>
      match d.unmarshalChainResponse responseBytes with
      | .error err => (none, some ("error deserialization ApplyBlock, " ++ err))
      | .ok responseVariant =>
        match responseVariant.Response with
        | some (.SubmitBlock r) => (some r, none)
        | some (.Error e) =>
            match d.jsonUnmarshal e.Data { Code := 0 } with
            | (eData, jsonErr) =>
              if jsonErr ≠ none then
                if eData.Code = d.ErrorCode_unknown_previous_block then
                  (none, some "unknown previous block")
                else if eData.Code = d.ErrorCode_pre_irreversibility_block then
                  (none, some "error block irreversibility")
                else
                  (none, some ("error local rpc ApplyBlock, chain rpc error, " ++ e.Message))
              else
                (none, some ("error local rpc ApplyBlock, chain rpc error, " ++ e.Message))
        | _ => (none, some "error local rpc ApplyBlock, unexpected chain rpc response")

/-- `KoinosRPC.GetBlocksByHeight`. -/
def KoinosRPC.GetBlocksByHeight (k : KoinosRPC) (d : Deps) (ctx : Nat) (blockID : List Byte)
    (height : Nat) (numBlocks : Nat) : Option GetBlocksByHeightResponse × Option String :=
  let args := BlockStoreRequest.GetBlocksByHeight
    { HeadBlockId := blockID, AncestorStartHeight := height, NumBlocks := numBlocks,
      ReturnBlock := true, ReturnReceipt := false }
  match d.marshalBlockStoreRequest args with
  | .error err => (none, some ("serialization error GetBlocksByHeight, " ++ err))
  | .ok data =>
    match k.mq.RPC ctx "application/octet-stream" BlockStoreRPC data with
    | .error err =>
        if err.isDeadlineExceeded then
          (none, some ("local rpc timeout GetBlocksByHeight, " ++ err.text))
        else (none, some ("local rpc error GetBlocksByHeight, " ++ err.text))
    | .ok responseBytes =>
      match d.unmarshalBlockStoreResponse responseBytes with
      | .error err => (none, some ("deserialization error GetBlocksByHeight, " ++ err))
      | .ok responseVariant =>
        match responseVariant.Response with
        | some (.GetBlocksByHeight r) => (some r, none)
        | some (.Error e) =>
            (none, some ("local rpc error GetBlocksByHeight, block_store rpc error, " ++ e.Message))
        | _ =>
            (none, some "local rpc error GetBlocksByHeight, unexpected block_store rpc response")

/-- `KoinosRPC.IsConnectedToChain`: true as soon as any response deserializes. -/
def KoinosRPC.IsConnectedToChain (k : KoinosRPC) (d : Deps) (ctx : Nat) : Bool × Option String :=
  match d.marshalChainRequest ChainRequest.Reserved with
  | .error err => (false, some ("error serializattion IsConnectedToChain, " ++ err))
  | .ok data =>
    match k.mq.RPC ctx "application/octet-stream" ChainRPC data with
    | .error err =>
        if err.isDeadlineExceeded then
          (false, some ("error local rpc timeout IsConnectedToChain, " ++ err.text))
        else (false, some ("error local rpc IsConnectedToChain, " ++ err.text))
    | .ok responseBytes =>
      match d.unmarshalChainResponse responseBytes with
      | .error err => (false, some ("error deserialization IsConnectedToChain, " ++ err))
      | .ok _ => (true, none)

/-- `KoinosRPC.GetHeadInfo`. -/
def KoinosRPC.GetHeadInfo (k : KoinosRPC) (d : Deps) (ctx : Nat) :
    Option GetHeadInfoResponse × Option String :=
  match d.marshalChainRequest ChainRequest.GetHeadInfo with
  | .error err => (none, some ("serialization error GetForkHeads, " ++ err))
  | .ok data =>
    match k.mq.RPC ctx "application/octet-stream" ChainRPC data with
    | .error err =>
        if err.isDeadlineExceeded then (none, some ("local rpc timeout GetForkHeads, " ++ err.text))
        else (none, some ("local rpc error GetForkHeads, " ++ err.text))
    | .ok responseBytes =>
      match d.unmarshalChainResponse responseBytes with
      | .error err => (none, some ("deserialization error, " ++ err))
      | .ok responseVariant =>
        match responseVariant.Response with
        | some (.GetHeadInfo r) => (some r, none)
        | some (.Error e) =>
            (none, some ("local rpc error GetForkHeads, chain rpc error, " ++ e.Message))
        | _ => (none, some "local rpc error GetForkHeads, unexpected chain rpc response")

/-! ## Runs of the two loops -/

/-- What the program does to the outside, in the order it does it. -/
inductive Event where
  | logInfo (msg : String)
  | logError (msg : String)
  | GetHeadInfo
  | GetBlocksByHeight (blockID : List Byte) (height : Nat) (numBlocks : Nat)
  | ApplyBlock (block : Block)
  | WriteString (s : List Byte)
  deriving DecidableEq, Repr

/-- How far a goroutine got: still `running` when the fuel of the model ran
out, `returned` from its function, stopped the process with `os.Exit`, or
crashed it with a runtime panic. -/
inductive Status where
  | running
  | returned
  | exit (code : Nat)
  | panic (msg : String)
  deriving DecidableEq, Repr

/-- The events of a run and its status. -/
structure Run where
  events : List Event
  status : Status
  deriving DecidableEq, Repr

/-- The run that does `evs` first and then goes on as `r`. -/
def Run.after (evs : List Event) (r : Run) : Run :=
  { events := evs ++ r.events, status := r.status }

/-- The text of the runtime panic on a nil pointer. -/
def nilDereference : String :=
  "runtime error: invalid memory address or nil pointer dereference"

/-- The text of the runtime panic on an index into an empty slice. -/
def indexOutOfRange : String :=
  "runtime error: index out of range [0] with length 0"

/-- The `*os.File` of the block file: what its reads deliver, and for the
write number `n` (counted from 0) of the string `s` the error
`f.WriteString(s)` returns, if it fails. -/
structure File where
  src : List ReadItem
  writeErr : Nat → List Byte → Option String

/-- Constant `methodDefault`. -/
def methodDefault : String := "json-rpc"

/-- Constant `startBlockHeightDefault`. -/
def startBlockHeightDefault : Nat := 1

/-- Constant `nbBlocksPerCallDefault`. -/
def nbBlocksPerCallDefault : Nat := 10000

/-- The blocks handed to `ApplyBlock` in a run, in order. -/
def appliedBlocks : List Event → List Block
  | [] => []
  | .ApplyBlock b :: evs => b :: appliedBlocks evs
  | _ :: evs => appliedBlocks evs

/-- The `(height, numBlocks)` of the calls of `GetBlocksByHeight` in a run, in order. -/
def fetchCalls : List Event → List (Nat × Nat)
  | [] => []
  | .GetBlocksByHeight _ height numBlocks :: evs => (height, numBlocks) :: fetchCalls evs
  | _ :: evs => fetchCalls evs

/-- The bytes appended to the block file in a run, in order. -/
def written : List Event → List Byte
  | [] => []
  | .WriteString s :: evs => s ++ written evs
  | _ :: evs => written evs

/-- The number of calls of `GetHeadInfo` in a run. -/
def headInfoCalls : List Event → Nat
  | [] => 0
  | .GetHeadInfo :: evs => headInfoCalls evs + 1
  | _ :: evs => headInfoCalls evs

/-- The remote calls of a run, in order: its events that are a call of
`GetHeadInfo`, of `GetBlocksByHeight` or of `ApplyBlock`. -/
def remoteCalls : List Event → List Event
  | [] => []
  | .GetHeadInfo :: evs => .GetHeadInfo :: remoteCalls evs
  | .GetBlocksByHeight blockID height numBlocks :: evs =>
      .GetBlocksByHeight blockID height numBlocks :: remoteCalls evs
  | .ApplyBlock block :: evs => .ApplyBlock block :: remoteCalls evs
  | _ :: evs => remoteCalls evs

/-! ## The choice of the client by `method` -/

/-- The call of `ApplyBlock` that the replay loop makes: on the JSON-RPC client
when `method == methodDefault`, on the AMQP client otherwise. -/
def submit (d : Deps) (jsonRpcClient : JsonRPC) (amqpClient : KoinosRPC) (method : String)
    (ctx : Nat) (block : Block) : Option SubmitBlockResponse × Option String :=
  if method = methodDefault then jsonRpcClient.ApplyBlock ctx block
  else amqpClient.ApplyBlock d ctx block

/-- The call of `GetBlocksByHeight` that the archive loop makes, on the client
that `method` selects. -/
def fetch (d : Deps) (jsonRpcClient : JsonRPC) (amqpClient : KoinosRPC) (method : String)
    (ctx : Nat) (blockID : List Byte) (height : Nat) (numBlocks : Nat) :
    Option GetBlocksByHeightResponse × Option String :=
  if method = methodDefault then jsonRpcClient.GetBlocksByHeight ctx blockID height numBlocks
  else amqpClient.GetBlocksByHeight d ctx blockID height numBlocks

/-- The call of `GetHeadInfo` that `generateBlockFile` makes, on the client that
`method` selects. -/
def headInfoOf (d : Deps) (jsonRpcClient : JsonRPC) (amqpClient : KoinosRPC) (method : String) :
    Option GetHeadInfoResponse × Option String :=
  if method = methodDefault then jsonRpcClient.GetHeadInfo 0 else amqpClient.GetHeadInfo d 0

/-! ## Replay: `readBlockFile` -/

/-- The outcome of the head of one iteration of the replay loop. -/
inductive Entry where
  | eof
  | fatal (events : List Event)
  | block (events : List Event) (block : Block)
  deriving DecidableEq, Repr

/-- The head of the body of the loop of `readBlockFile` (main.go, lines 186 to
207): read a line; on `io.EOF` break; any other read error is logged and the
iteration goes on with the line as read; decode the line from base64 and
deserialize a block from it, either failure being logged before `os.Exit(1)`.
`none` when the fuel of `readLine` runs out. -/
def readEntry (d : Deps) (reader : Reader) : Option (Entry × Reader) :=
  match readLine reader with
  | none => none
  | some ((line, err), reader1) =>
    if err = some .EOF then some (.eof, reader1)
    else
      let logged : List Event :=
        match err with
        | some e => [.logError e.Error]
        | none => []
      match base64.DecodeString line with
      | .error e => some (.fatal (logged ++ [.logError e]), reader1)
      | .ok data =>
        match d.unmarshalBlock data with
        | .error e => some (.fatal (logged ++ [.logError e]), reader1)
        | .ok block => some (.block logged block, reader1)

/-- The loop of `readBlockFile`; `ctx` counts the remote calls made so far. -/
def readBlockFileLoop (d : Deps) (jsonRpcClient : JsonRPC) (amqpClient : KoinosRPC)
    (method : String) (startHeight : Nat) : Nat → Reader → Nat → Run
  | 0, _, _ => { events := [], status := .running }
  | fuel + 1, reader, ctx =>
    match readEntry d reader with
    | none => { events := [], status := .running }
    | some (.eof, _) =>
        { events := [.logInfo "Block file successfully processed"], status := .returned }
    | some (.fatal events, _) => { events := events, status := .exit 1 }
    | some (.block events block, reader1) =>
      Run.after events <|
      match block.Header with
      | none => { events := [], status := .panic nilDereference }
      | some header =>
        if header.Height ≥ startHeight then
          let res := submit d jsonRpcClient amqpClient method ctx block
          Run.after [.ApplyBlock block] <|
          match res.2 with
          | some err => { events := [.logError err], status := .exit 1 }
          | none =>
            Run.after [.logInfo ("Applied Block " ++ toString header.Height)]
              (readBlockFileLoop d jsonRpcClient amqpClient method startHeight fuel reader1
                (ctx + 1))
        else
          Run.after [.logInfo ("Skipped Block " ++ toString header.Height)]
            (readBlockFileLoop d jsonRpcClient amqpClient method startHeight fuel reader1 ctx)

/-- `readBlockFile` (main.go). Each iteration consumes part of the file, so the
fuel given is enough for the loop to end. -/
def readBlockFile (d : Deps) (jsonRpcClient : JsonRPC) (amqpClient : KoinosRPC)
    (method : String) (startHeight : Nat) (f : File) : Run :=
  let reader := NewReader f.src
  readBlockFileLoop d jsonRpcClient amqpClient method startHeight (f.src.length + 1) reader 0

/-- The entries the replay side gets out of a file, read to its end: `readEntry`
repeated until it reports the end of the file. `none` when an entry is fatal
or the fuel runs out. -/
def readEntries (d : Deps) : Nat → Reader → Option (List Block)
  | 0, _ => none
  | fuel + 1, reader =>
    match readEntry d reader with
    | some (.eof, _) => some []
    | some (.block _ block, reader1) => (readEntries d fuel reader1).map (block :: ·)
    | _ => none

/-! ## Archive: `generateBlockFile` -/

/-- The loop over `blocks.BlockItems` in `generateBlockFile` (lines 280 to 296):
each block is serialized, encoded in base64 and appended to the file with a
line feed; `w` is the number of writes made before. Status `returned` stands
for the end of the range. -/
def saveBlocks (d : Deps) (f : File) : Nat → List BlockItem → Run
  | _, [] => { events := [], status := .returned }
  | w, blockItem :: rest =>
    match d.marshalBlock blockItem.Block with
    | .error err => { events := [.logError err], status := .exit 1 }
    | .ok data =>
      let b64 := base64.EncodeToString data
      match f.writeErr w (b64 ++ [10]) with
      | some err => { events := [.logError err], status := .exit 1 }
      | none => Run.after [.WriteString (b64 ++ [10])] (saveBlocks d f (w + 1) rest)

/-- The loop `for i < headInfo.LastIrreversibleBlock` of `generateBlockFile`. -/
def generateLoop (d : Deps) (jsonRpcClient : JsonRPC) (amqpClient : KoinosRPC)
    (method : String) (f : File) (headInfo : GetHeadInfoResponse) (numBlocksPerCall : Nat) :
    Nat → Nat → Nat → Nat → Run
  | 0, _, _, _ => { events := [], status := .running }
  | fuel + 1, i, ctx, w =>
    if i < headInfo.LastIrreversibleBlock then
      Run.after [.logInfo ("Fetching Blocks " ++ toString i ++ "-" ++
        toString ((i + numBlocksPerCall) % 2 ^ 64))] <|
      match headInfo.HeadTopology with
      | none => { events := [], status := .panic nilDereference }
      | some topology =>
        let res := fetch d jsonRpcClient amqpClient method ctx topology.Id i numBlocksPerCall
        Run.after [.GetBlocksByHeight topology.Id i numBlocksPerCall] <|
        match res.2 with
        | some err => { events := [.logError err], status := .exit 1 }
        | none =>
          match res.1 with
          | none => { events := [], status := .panic nilDereference }
          | some blocks =>
            let saved := saveBlocks d f w blocks.BlockItems
            if saved.status = .returned then
              Run.after saved.events <|
              match blocks.BlockItems.head?, blocks.BlockItems.getLast? with
              | some first, some last =>
                Run.after [.logInfo ("Saved Blocks " ++ toString first.BlockHeight ++ "-" ++
                  toString last.BlockHeight)]
                  (generateLoop d jsonRpcClient amqpClient method f headInfo numBlocksPerCall
                    fuel ((i + numBlocksPerCall) % 2 ^ 64) (ctx + 1)
                    (w + blocks.BlockItems.length))
              | _, _ => { events := [], status := .panic indexOutOfRange }
            else saved
    else { events := [.logInfo "Block file successfully generated"], status := .returned }

/-- `generateBlockFile` (main.go); `fuel` bounds the number of iterations of its
loop that the model follows. -/
def generateBlockFile (d : Deps) (jsonRpcClient : JsonRPC) (amqpClient : KoinosRPC)
    (method : String) (f : File) (startHeight : Nat) (numBlocksPerCall : Nat) (fuel : Nat) :
    Run :=
  let res := headInfoOf d jsonRpcClient amqpClient method
  Run.after [.GetHeadInfo] <|
  match res.2 with
  | some err => { events := [.logError err], status := .exit 1 }
  | none =>
    match res.1 with
    | none => { events := [], status := .panic nilDereference }
    | some headInfo =>
      Run.after [.logInfo ("Last Irreversible Block " ++ toString headInfo.LastIrreversibleBlock)]
        (generateLoop d jsonRpcClient amqpClient method f headInfo numBlocksPerCall fuel
          startHeight 1 0)

/-! ## Helpers of the statements -/

/-- The content of an archive file with the given lines: each line is followed
by a line feed. -/
def archive (lines : List (List Byte)) : List Byte :=
  lines.flatMap fun line => line ++ [10]

/-- A line of text: it holds no line feed and no carriage return. -/
def isLine (line : List Byte) : Prop :=
  ∀ c ∈ line, c ≠ 10 ∧ c ≠ 13

/-- The line decodes to the block: it is the base64 text of bytes that
deserialize to it. -/
def decodesTo (d : Deps) (line : List Byte) (block : Block) : Prop :=
  ∃ data, base64.DecodeString line = .ok data ∧ d.unmarshalBlock data = .ok block

/-- The line is the archive entry of the block: the base64 text of its
serialization. -/
def encodes (d : Deps) (block : Block) (line : List Byte) : Prop :=
  ∃ data, d.marshalBlock block = .ok data ∧ line = base64.EncodeToString data

/-- The test of the replay loop on a block with a header:
`block.Header.Height >= startHeight`. -/
def qualifies (startHeight : Nat) (block : Block) : Bool :=
  match block.Header with
  | some header => decide (header.Height ≥ startHeight)
  | none => false

/-! ## Sample values, for the instances of the theorems -/

namespace Sample

/-- A block with a header of the given height and nothing else. -/
def blockAt (height : Nat) : Block :=
  { Id := [], Header := some { Previous := [], Height := height, Timestamp := 0 },
    Signature := [] }

/-- The item of a batch for the block at the given height. -/
def itemAt (height : Nat) : BlockItem :=
  { BlockId := [], BlockHeight := height, Block := blockAt height }

/-- The empty block: what deserializing no bytes gives. -/
def emptyBlock : Block :=
  { Id := [], Header := none, Signature := [] }

/-- A payload that is the JSON object with the one member `code`, of value -1003. -/
def codePayload : String := "\x7b\"code\":-1003\x7d"

/-- A payload with the member `code` twice: first the integer -1003, then a
string. `json.Unmarshal` stores the first into `Code`, records a type error
at the second, and returns that error. -/
def duplicatePayload : String := "\x7b\"code\":-1003,\"code\":\"x\"\x7d"

/-- A payload that is not JSON. -/
def brokenPayload : String := "oops"

/-- A head info with the given last irreversible block. -/
def headInfo (lib : Nat) : GetHeadInfoResponse :=
  { HeadTopology := some { Id := [1], Height := lib + 2, Previous := [0] },
    LastIrreversibleBlock := lib, HeadStateMerkleRoot := [], HeadBlockTime := 0 }

/-- A small stand-in for the libraries. The blocks it serializes are the blocks
`blockAt h`, as `h + 1` bytes of value 1, and the empty block, as no byte; a
response envelope is told by its first byte; the JSON decoder knows the two
sample payloads. The error codes are sample values. -/
def deps : Deps where
  marshalBlock b :=
    match b.Header with
    | some header =>
      if b = blockAt header.Height then .ok (List.replicate (header.Height + 1) 1)
      else .error "unsupported block"
    | none => if b = emptyBlock then .ok [] else .error "unsupported block"
  unmarshalBlock data :=
    match data with
    | [] => .ok emptyBlock
    | _ :: rest => .ok (blockAt rest.length)
  marshalChainRequest _ := .ok []
  unmarshalChainResponse data :=
    match data with
    | [] => .ok { Response := none }
    | x :: _ =>
      if x = 0 then .ok { Response := some (.SubmitBlock { Receipt := [] }) }
      else if x = 1 then
        .ok { Response := some (.Error { Message := "block rejected", Data := codePayload }) }
      else if x = 2 then
        .ok { Response := some (.Error { Message := "block rejected", Data := brokenPayload }) }
      else if x = 3 then .ok { Response := some (.GetHeadInfo (headInfo 25000)) }
      else if x = 4 then
        .ok { Response := some (.Error { Message := "block rejected", Data := duplicatePayload }) }
      else .ok { Response := some (.other 7) }
  marshalBlockStoreRequest _ := .ok []
  unmarshalBlockStoreResponse data :=
    match data with
    | [] => .ok { Response := none }
    | x :: _ =>
      if x = 0 then
        .ok { Response := some (.GetBlocksByHeight { BlockItems := [itemAt 1] }) }
      else if x = 1 then
        .ok { Response := some (.Error { Message := "no such block", Data := "" }) }
      else .ok { Response := some (.other 7) }
  jsonUnmarshal data e :=
    if data = codePayload then ({ Code := -1003 }, none)
    else if data = duplicatePayload then
      ({ Code := -1003 },
        some "json: cannot unmarshal string into Go struct field chainError.code of type int64")
    else (e, some "invalid character")
  ErrorCode_unknown_previous_block := -1003
  ErrorCode_pre_irreversibility_block := -1015

/-- The line of the archive for the block `blockAt h`, under `deps`. -/
def lineAt (height : Nat) : List Byte :=
  base64.EncodeToString (List.replicate (height + 1) 1)

/-- A message queue client that answers every request with the same bytes. -/
def replying (bytes : List Byte) : Client :=
  { RPC := fun _ _ _ _ => .ok bytes }

/-- A JSON-RPC client of a node whose last irreversible block is `lib`: every
block is accepted, except in the call number `failAt`; a range of blocks is
answered with the one block at its start height, or with `batch` when given. -/
def jsonRpc (lib : Nat) (failAt : Option Nat) (batch : Option (List BlockItem)) : JsonRPC where
  ApplyBlock ctx _ :=
    if failAt = some ctx then (none, some "rpc timeout ApplyBlock, context deadline exceeded")
    else (some { Receipt := [] }, none)
  GetBlocksByHeight _ _ height _ :=
    match batch with
    | some items => (some { BlockItems := items }, none)
    | none =>
      (some { BlockItems := [itemAt height] }, none)
  GetHeadInfo _ := (some (headInfo lib), none)

/-- A JSON-RPC client of a node whose head info carries no head topology. -/
def jsonRpcNoTopology (lib : Nat) : JsonRPC where
  ApplyBlock _ _ := (some { Receipt := [] }, none)
  GetBlocksByHeight _ _ height _ := (some { BlockItems := [itemAt height] }, none)
  GetHeadInfo _ :=
    (some { HeadTopology := none, LastIrreversibleBlock := lib, HeadStateMerkleRoot := [],
            HeadBlockTime := 0 }, none)

/-- An item whose block the sample codec does not serialize. -/
def foreignItem : BlockItem :=
  { BlockId := [], BlockHeight := 1,
    Block := { Id := [7], Header := some { Previous := [], Height := 1, Timestamp := 0 },
               Signature := [] } }

/-- An empty block file on a full disk: every write to it fails. -/
def fullFile : File :=
  { src := [], writeErr := fun _ _ => some "write blocks.dat: no space left on device" }

/-- A block file with the given content, every write to which succeeds. -/
def file (content : List Byte) : File :=
  { src := fileBytes content, writeErr := fun _ _ => none }

/-- A block file whose first read fails, before any data, with an error that
is not the end of the file. -/
def failingFile (content : List Byte) : File :=
  { src := .fail "read blocks.dat: input/output error" :: fileBytes content,
    writeErr := fun _ _ => none }

end Sample

/-! ## Theorems -/

/-! ### Runs and their events -/

@[simp] theorem Run.after_events (evs : List Event) (r : Run) :
    (Run.after evs r).events = evs ++ r.events := rfl

@[simp] theorem Run.after_status (evs : List Event) (r : Run) :
    (Run.after evs r).status = r.status := rfl

theorem fetchCalls_append (xs ys : List Event) :
    fetchCalls (xs ++ ys) = fetchCalls xs ++ fetchCalls ys := by
  induction xs with
  | nil => rfl
  | cons x xs ih => cases x <;> simp [fetchCalls, ih]

theorem appliedBlocks_append (xs ys : List Event) :
    appliedBlocks (xs ++ ys) = appliedBlocks xs ++ appliedBlocks ys := by
  induction xs with
  | nil => rfl
  | cons x xs ih => cases x <;> simp [appliedBlocks, ih]

theorem written_append (xs ys : List Event) :
    written (xs ++ ys) = written xs ++ written ys := by
  induction xs with
  | nil => rfl
  | cons x xs ih => cases x <;> simp [written, ih]

theorem remoteCalls_append (xs ys : List Event) :
    remoteCalls (xs ++ ys) = remoteCalls xs ++ remoteCalls ys := by
  induction xs with
  | nil => rfl
  | cons x xs ih => cases x <;> simp [remoteCalls, ih]

theorem headInfoCalls_append (xs ys : List Event) :
    headInfoCalls (xs ++ ys) = headInfoCalls xs + headInfoCalls ys := by
  induction xs with
  | nil => simp [headInfoCalls]
  | cons x xs ih => cases x <;> simp [headInfoCalls, ih]; omega

/-! ### The sample codec -/

theorem Sample.marshalBlock_blockAt (height : Nat) :
    Sample.deps.marshalBlock (Sample.blockAt height) =
      .ok (List.replicate (height + 1) 1) := by
  simp [Sample.deps, Sample.blockAt]

theorem Sample.unmarshalBlock_inverts (block : Block) (data : List Byte)
    (h : Sample.deps.marshalBlock block = .ok data) :
    Sample.deps.unmarshalBlock data = .ok block := by
  rcases block with ⟨id, _ | header, sig⟩
  · simp only [Sample.deps] at h ⊢
    split_ifs at h with hb
    · cases h
      simp [hb]
  · simp only [Sample.deps] at h ⊢
    split_ifs at h with hb
    · cases h
      rw [hb]
      simp [List.replicate_succ, Sample.blockAt]

/-! ### The remote operation client -/

/-- C4 (as the code behaves): when the submit-block response is the error
variant and `json.Unmarshal` parses its payload without error into the code
`c`, whatever `c` is (also when it is `unknown_previous_block` or
`pre_irreversibility_block`), `ApplyBlock` returns the generic error with the
remote message, not one of the two named conditions: the classification is
guarded by `jsonErr != nil`. -/
theorem ApplyBlock_parsed_code_not_classified (d : Deps) (k : KoinosRPC) (ctx : Nat)
    (block : Block) (data bytes : List Byte) (e : ErrorStatus) (c : Int)
    (hm : d.marshalChainRequest (.SubmitBlock { Block := block }) = .ok data)
    (hr : k.mq.RPC ctx "application/octet-stream" ChainRPC data = .ok bytes)
    (hu : d.unmarshalChainResponse bytes = .ok { Response := some (.Error e) })
    (hj : d.jsonUnmarshal e.Data { Code := 0 } = ({ Code := c }, none)) :
    k.ApplyBlock d ctx block =
      (none, some ("error local rpc ApplyBlock, chain rpc error, " ++ e.Message)) := by
  simp [KoinosRPC.ApplyBlock, hm, hr, hu, hj]

/-- The instance of `ApplyBlock_parsed_code_not_classified` at the payload
`codePayload`, whose code is the sample `unknown_previous_block`. -/
theorem ApplyBlock_parsed_code_not_classified_witness :
    Sample.deps.jsonUnmarshal Sample.codePayload { Code := 0 } =
        ({ Code := Sample.deps.ErrorCode_unknown_previous_block }, none) ∧
      (NewKoinosRPC (Sample.replying [1])).ApplyBlock Sample.deps 0 (Sample.blockAt 5) =
        (none, some ("error local rpc ApplyBlock, chain rpc error, " ++ "block rejected")) :=
  ⟨by simp [Sample.deps],
    ApplyBlock_parsed_code_not_classified Sample.deps (NewKoinosRPC (Sample.replying [1])) 0
      (Sample.blockAt 5) [] [1] { Message := "block rejected", Data := Sample.codePayload }
      (-1003) rfl rfl (by simp [Sample.deps]) (by simp [Sample.deps])⟩

/-- The fallback where it holds: when the submit-block response is the error
variant and either `json.Unmarshal` returns an error and the code of `eData`
is still its zero value (the two named codes being error codes, not 0), or
the code left in `eData` is neither named code, `ApplyBlock` returns a nil
response and the generic error: the fixed text followed by the message of the
response, unchanged. -/
theorem ApplyBlock_generic_fallback (d : Deps) (k : KoinosRPC) (ctx : Nat)
    (block : Block) (data bytes : List Byte) (e : ErrorStatus) (eData : chainError)
    (jsonErr : Option String)
    (hm : d.marshalChainRequest (.SubmitBlock { Block := block }) = .ok data)
    (hr : k.mq.RPC ctx "application/octet-stream" ChainRPC data = .ok bytes)
    (hu : d.unmarshalChainResponse bytes = .ok { Response := some (.Error e) })
    (hj : d.jsonUnmarshal e.Data { Code := 0 } = (eData, jsonErr))
    (hupb : d.ErrorCode_unknown_previous_block ≠ 0)
    (hpib : d.ErrorCode_pre_irreversibility_block ≠ 0)
    (h : (jsonErr ≠ none ∧ eData.Code = 0) ∨
      (eData.Code ≠ d.ErrorCode_unknown_previous_block ∧
        eData.Code ≠ d.ErrorCode_pre_irreversibility_block)) :
    k.ApplyBlock d ctx block =
      (none, some ("error local rpc ApplyBlock, chain rpc error, " ++ e.Message)) := by
  have hne : eData.Code ≠ d.ErrorCode_unknown_previous_block ∧
      eData.Code ≠ d.ErrorCode_pre_irreversibility_block := by
    rcases h with ⟨_, h0⟩ | h
    · rw [h0]; exact ⟨Ne.symm hupb, Ne.symm hpib⟩
    · exact h
  simp [KoinosRPC.ApplyBlock, hm, hr, hu, hj, hne.1, hne.2]

/-- The instance of `ApplyBlock_generic_fallback` at a payload that is not JSON. -/
theorem ApplyBlock_generic_fallback_witness :
    (NewKoinosRPC (Sample.replying [2])).ApplyBlock Sample.deps 0 (Sample.blockAt 5) =
      (none, some ("error local rpc ApplyBlock, chain rpc error, " ++ "block rejected")) :=
  ApplyBlock_generic_fallback Sample.deps (NewKoinosRPC (Sample.replying [2])) 0
    (Sample.blockAt 5) [] [2] { Message := "block rejected", Data := Sample.brokenPayload }
    { Code := 0 } (some "invalid character") rfl rfl (by simp [Sample.deps])
    (by simp [Sample.deps, Sample.brokenPayload, Sample.codePayload, Sample.duplicatePayload])
    (by simp [Sample.deps]) (by simp [Sample.deps]) (Or.inl ⟨by simp, rfl⟩)

/-- C5 (as the code behaves): when the submit-block response is the error
variant and its payload is not parseable, `json.Unmarshal` returning an error,
but the decoder has stored the code `unknown_previous_block` before it failed
(as it does at a payload with the member `code` twice, an integer and then a
string), `ApplyBlock` returns the error `unknown previous block`, which is not
the generic error with the message of the response: the classification runs
under the guard `jsonErr != nil`. -/
theorem ApplyBlock_unparseable_payload_classified (d : Deps) (k : KoinosRPC) (ctx : Nat)
    (block : Block) (data bytes : List Byte) (e : ErrorStatus) (eData : chainError)
    (jsonErr : String)
    (hm : d.marshalChainRequest (.SubmitBlock { Block := block }) = .ok data)
    (hr : k.mq.RPC ctx "application/octet-stream" ChainRPC data = .ok bytes)
    (hu : d.unmarshalChainResponse bytes = .ok { Response := some (.Error e) })
    (hj : d.jsonUnmarshal e.Data { Code := 0 } = (eData, some jsonErr))
    (hcode : eData.Code = d.ErrorCode_unknown_previous_block) :
    k.ApplyBlock d ctx block = (none, some "unknown previous block") ∧
      k.ApplyBlock d ctx block ≠
        (none, some ("error local rpc ApplyBlock, chain rpc error, " ++ e.Message)) := by
  have h : k.ApplyBlock d ctx block = (none, some "unknown previous block") := by
    simp [KoinosRPC.ApplyBlock, hm, hr, hu, hj, hcode]
  refine ⟨h, ?_⟩
  rw [h]
  intro heq
  have h2 := congrArg String.data (Option.some.inj (congrArg Prod.snd heq))
  simp [String.data_append] at h2

/-- The instance of `ApplyBlock_unparseable_payload_classified` at the payload
`duplicatePayload`. -/
theorem ApplyBlock_unparseable_payload_classified_witness :
    (NewKoinosRPC (Sample.replying [4])).ApplyBlock Sample.deps 0 (Sample.blockAt 5) =
        (none, some "unknown previous block") ∧
      (NewKoinosRPC (Sample.replying [4])).ApplyBlock Sample.deps 0 (Sample.blockAt 5) ≠
        (none, some ("error local rpc ApplyBlock, chain rpc error, " ++ "block rejected")) :=
  ApplyBlock_unparseable_payload_classified Sample.deps (NewKoinosRPC (Sample.replying [4])) 0
    (Sample.blockAt 5) [] [4] { Message := "block rejected", Data := Sample.duplicatePayload }
    { Code := -1003 }
    "json: cannot unmarshal string into Go struct field chainError.code of type int64"
    rfl rfl (by simp [Sample.deps])
    (by simp [Sample.deps, Sample.duplicatePayload, Sample.codePayload]) rfl

/-- C10: once the response envelope has been received and deserialized,
`GetHeadInfo` and `GetBlocksByHeight` return a payload and no error exactly
when the envelope carries their own success variant (and then that payload);
for the error variant, no payload and an error text that ends with the remote
message; in every other case (another variant, or none populated) no payload
and the `unexpected ... rpc response` error, which no error-variant text
equals; a payload and an error are never returned together. -/
theorem response_discrimination (d : Deps) (k : KoinosRPC) (ctx : Nat)
    (blockID : List Byte) (height numBlocks : Nat) (data1 bytes1 data2 bytes2 : List Byte)
    (rv1 : ChainResponse) (rv2 : BlockStoreResponse)
    (hm1 : d.marshalChainRequest ChainRequest.GetHeadInfo = .ok data1)
    (hr1 : k.mq.RPC ctx "application/octet-stream" ChainRPC data1 = .ok bytes1)
    (hu1 : d.unmarshalChainResponse bytes1 = .ok rv1)
    (hm2 : d.marshalBlockStoreRequest (.GetBlocksByHeight
      { HeadBlockId := blockID, AncestorStartHeight := height, NumBlocks := numBlocks,
        ReturnBlock := true, ReturnReceipt := false }) = .ok data2)
    (hr2 : k.mq.RPC ctx "application/octet-stream" BlockStoreRPC data2 = .ok bytes2)
    (hu2 : d.unmarshalBlockStoreResponse bytes2 = .ok rv2) :
    ((∀ r, k.GetHeadInfo d ctx = (some r, none) ↔ rv1.Response = some (.GetHeadInfo r)) ∧
      (∀ e, rv1.Response = some (.Error e) → k.GetHeadInfo d ctx =
        (none, some ("local rpc error GetForkHeads, chain rpc error, " ++ e.Message))) ∧
      ((∀ r, rv1.Response ≠ some (.GetHeadInfo r)) → (∀ e, rv1.Response ≠ some (.Error e)) →
        k.GetHeadInfo d ctx =
          (none, some "local rpc error GetForkHeads, unexpected chain rpc response")) ∧
      (∀ m : String, "local rpc error GetForkHeads, chain rpc error, " ++ m ≠
        "local rpc error GetForkHeads, unexpected chain rpc response") ∧
      ¬ ((k.GetHeadInfo d ctx).1 ≠ none ∧ (k.GetHeadInfo d ctx).2 ≠ none)) ∧
    ((∀ r, k.GetBlocksByHeight d ctx blockID height numBlocks = (some r, none) ↔
        rv2.Response = some (.GetBlocksByHeight r)) ∧
      (∀ e, rv2.Response = some (.Error e) →
        k.GetBlocksByHeight d ctx blockID height numBlocks =
          (none, some ("local rpc error GetBlocksByHeight, block_store rpc error, " ++
            e.Message))) ∧
      ((∀ r, rv2.Response ≠ some (.GetBlocksByHeight r)) →
        (∀ e, rv2.Response ≠ some (.Error e)) →
        k.GetBlocksByHeight d ctx blockID height numBlocks =
          (none, some "local rpc error GetBlocksByHeight, unexpected block_store rpc response")) ∧
      (∀ m : String, "local rpc error GetBlocksByHeight, block_store rpc error, " ++ m ≠
        "local rpc error GetBlocksByHeight, unexpected block_store rpc response") ∧
      ¬ ((k.GetBlocksByHeight d ctx blockID height numBlocks).1 ≠ none ∧
        (k.GetBlocksByHeight d ctx blockID height numBlocks).2 ≠ none)) := by
  have hs1 : ∀ m : String, "local rpc error GetForkHeads, chain rpc error, " ++ m ≠
      "local rpc error GetForkHeads, unexpected chain rpc response" := by
    intro m h
    have h2 := congrArg String.data h
    simp [String.data_append] at h2
  have hs2 : ∀ m : String, "local rpc error GetBlocksByHeight, block_store rpc error, " ++ m ≠
      "local rpc error GetBlocksByHeight, unexpected block_store rpc response" := by
    intro m h
    have h2 := congrArg String.data h
    simp [String.data_append] at h2
  refine ⟨⟨?_, ?_, ?_, hs1, ?_⟩, ⟨?_, ?_, ?_, hs2, ?_⟩⟩
  · intro r
    rcases rv1 with ⟨_ | v⟩
    · simp [KoinosRPC.GetHeadInfo, hm1, hr1, hu1]
    · cases v <;> simp [KoinosRPC.GetHeadInfo, hm1, hr1, hu1]
  · intro e he
    rcases rv1 with ⟨v⟩
    simp only at he
    subst he
    simp [KoinosRPC.GetHeadInfo, hm1, hr1, hu1]
  · intro h1 h2
    rcases rv1 with ⟨_ | v⟩
    · simp [KoinosRPC.GetHeadInfo, hm1, hr1, hu1]
    · cases v <;> simp_all [KoinosRPC.GetHeadInfo]
  · rcases rv1 with ⟨_ | v⟩
    · simp [KoinosRPC.GetHeadInfo, hm1, hr1, hu1]
    · cases v <;> simp [KoinosRPC.GetHeadInfo, hm1, hr1, hu1]
  · intro r
    rcases rv2 with ⟨_ | v⟩
    · simp [KoinosRPC.GetBlocksByHeight, hm2, hr2, hu2]
    · cases v <;> simp [KoinosRPC.GetBlocksByHeight, hm2, hr2, hu2]
  · intro e he
    rcases rv2 with ⟨v⟩
    simp only at he
    subst he
    simp [KoinosRPC.GetBlocksByHeight, hm2, hr2, hu2]
  · intro h1 h2
    rcases rv2 with ⟨_ | v⟩
    · simp [KoinosRPC.GetBlocksByHeight, hm2, hr2, hu2]
    · cases v <;> simp_all [KoinosRPC.GetBlocksByHeight]
  · rcases rv2 with ⟨_ | v⟩
    · simp [KoinosRPC.GetBlocksByHeight, hm2, hr2, hu2]
    · cases v <;> simp [KoinosRPC.GetBlocksByHeight, hm2, hr2, hu2]

/-- The instance of `response_discrimination` at a node that answers every
request with the byte 3: a head info for the chain service, a variant
without case for the block store. -/
theorem response_discrimination_witness :
    (NewKoinosRPC (Sample.replying [3])).GetHeadInfo Sample.deps 0 =
        (some (Sample.headInfo 25000), none) ∧
      (NewKoinosRPC (Sample.replying [3])).GetBlocksByHeight Sample.deps 0 [1] 1 10000 =
        (none, some "local rpc error GetBlocksByHeight, unexpected block_store rpc response") :=
  have h := response_discrimination Sample.deps (NewKoinosRPC (Sample.replying [3])) 0 [1] 1
    10000 [] [3] [] [3] { Response := some (.GetHeadInfo (Sample.headInfo 25000)) }
    { Response := some (.other 7) } rfl rfl (by simp [Sample.deps]) rfl rfl
    (by simp [Sample.deps])
  ⟨(h.1.1 (Sample.headInfo 25000)).2 rfl,
    h.2.2.2.1 (fun r => by simp) (fun e => by simp)⟩

/-! ### The archive loop -/

/-- When every block serializes and every write succeeds, the loop over a batch
runs to its end and makes no remote call. -/
theorem saveBlocks_ok (d : Deps) (f : File) (hwrite : ∀ n s, f.writeErr n s = none) :
    ∀ (items : List BlockItem) (w : Nat),
      (∀ item ∈ items, ∃ data, d.marshalBlock item.Block = .ok data) →
      (saveBlocks d f w items).status = .returned ∧
        fetchCalls (saveBlocks d f w items).events = [] ∧
        headInfoCalls (saveBlocks d f w items).events = 0 := by
  intro items
  induction items with
  | nil => intro w _; exact ⟨rfl, rfl, rfl⟩
  | cons item rest ih =>
    intro w h
    obtain ⟨data, hdata⟩ := h item (List.mem_cons_self _ _)
    have hrest := ih (w + 1) (fun x hx => h x (List.mem_cons_of_mem _ hx))
    simp only [saveBlocks, hdata, hwrite, Run.after_status, Run.after_events, fetchCalls_append,
      headInfoCalls_append]
    exact ⟨hrest.1, by simp [fetchCalls, hrest.2.1], by simp [headInfoCalls, hrest.2.2]⟩

/-- The loop of `generateBlockFile` from the cursor `i`, when `n` is the first
index with `i + n * b` at or above the last irreversible block, no cursor
increment overflows, and the fetches succeed with batches that are not empty
and are saved without error: it returns after exactly `n` fetches, at the
start heights `i + k * b`, each for `b` blocks. -/
theorem generateLoop_paginates (d : Deps) (jsonRpcClient : JsonRPC) (amqpClient : KoinosRPC)
    (method : String) (f : File) (headInfo : GetHeadInfoResponse) (topology : BlockTopology)
    (b : Nat) (htopo : headInfo.HeadTopology = some topology)
    (hwrite : ∀ n s, f.writeErr n s = none) :
    ∀ (n fuel i ctx w : Nat) (batch : Nat → GetBlocksByHeightResponse),
      n < fuel →
      (∀ k, k < n → i + k * b < headInfo.LastIrreversibleBlock) →
      headInfo.LastIrreversibleBlock ≤ i + n * b →
      (∀ k, k < n → i + (k + 1) * b < 2 ^ 64) →
      (∀ k, k < n →
        fetch d jsonRpcClient amqpClient method (ctx + k) topology.Id (i + k * b) b =
          (some (batch k), none) ∧ (batch k).BlockItems ≠ [] ∧
          ∀ item ∈ (batch k).BlockItems, ∃ data, d.marshalBlock item.Block = .ok data) →
      (generateLoop d jsonRpcClient amqpClient method f headInfo b fuel i ctx w).status =
          .returned ∧
        fetchCalls (generateLoop d jsonRpcClient amqpClient method f headInfo b fuel i ctx
          w).events = ((List.range n).map fun k => (i + k * b, b)) ∧
        headInfoCalls (generateLoop d jsonRpcClient amqpClient method f headInfo b fuel i ctx
          w).events = 0 := by
  intro n
  induction n with
  | zero =>
    intro fuel i ctx w batch hfuel _ hL _ _
    obtain ⟨fuel, rfl⟩ : ∃ m, fuel = m + 1 := ⟨fuel - 1, by omega⟩
    have hnot : ¬ i < headInfo.LastIrreversibleBlock := by simpa using hL
    simp [generateLoop, hnot, fetchCalls, headInfoCalls]
  | succ n ih =>
    intro fuel i ctx w batch hfuel hlt hL hover hfetch
    obtain ⟨fuel, rfl⟩ : ∃ m, fuel = m + 1 := ⟨fuel - 1, by omega⟩
    have hi : i < headInfo.LastIrreversibleBlock := by simpa using hlt 0 (Nat.succ_pos n)
    obtain ⟨hf, hne, hm⟩ := hfetch 0 (Nat.succ_pos n)
    simp only [Nat.zero_mul, Nat.add_zero] at hf
    have hsaved := saveBlocks_ok d f hwrite (batch 0).BlockItems w hm
    obtain ⟨first, rest, hitems⟩ := List.exists_cons_of_ne_nil hne
    obtain ⟨last, hlast⟩ := Option.isSome_iff_exists.mp (List.getLast?_isSome.mpr hne)
    have hmod : (i + b) % 2 ^ 64 = i + b := by
      apply Nat.mod_eq_of_lt
      simpa using hover 0 (Nat.succ_pos n)
    have hshift : ∀ k, i + (k + 1) * b = i + b + k * b := by
      intro k; ring
    have hrec := ih fuel (i + b) (ctx + 1) (w + (batch 0).BlockItems.length)
      (fun k => batch (k + 1)) (by omega)
      (fun k hk => by rw [← hshift]; exact hlt (k + 1) (by omega))
      (by rw [← hshift]; exact hL)
      (fun k hk => by rw [← hshift]; exact hover (k + 1) (by omega))
      (fun k hk => by
        have := hfetch (k + 1) (by omega)
        rw [hshift, show ctx + (k + 1) = ctx + 1 + k by omega] at this
        exact this)
    have hhead : (batch 0).BlockItems.head? = some first := by rw [hitems]; rfl
    simp only [generateLoop, hi, if_true, htopo, hf, hsaved.1, hhead, hlast, hmod,
      Run.after_status, Run.after_events, fetchCalls_append, headInfoCalls_append, hsaved.2.1,
      hsaved.2.2, hrec.1, hrec.2.1, hrec.2.2]
    refine ⟨trivial, ?_, by simp [headInfoCalls]⟩
    rw [List.range_succ_eq_map]
    simp [fetchCalls, hshift, Function.comp_def]

/-- With a stride of at least one the cursor `i + k * b` reaches the bound `L`:
there is a first index `n` at which it does, and `n` is at most `L - i`. -/
theorem exists_first_page (i b L : Nat) (hb : 1 ≤ b) :
    ∃ n, (∀ k, k < n → i + k * b < L) ∧ L ≤ i + n * b ∧ n ≤ L - i := by
  classical
  have hex : ∃ k, L ≤ i + k * b := ⟨L, by nlinarith⟩
  refine ⟨Nat.find hex, ?_, Nat.find_spec hex, ?_⟩
  · intro k hk
    have := Nat.find_min hex hk
    omega
  · apply Nat.find_min'
    have : L - i ≤ (L - i) * b := Nat.le_mul_of_pos_right _ hb
    omega

/-- C3 (amended): pagination of `generateBlockFile`. For a start height `s`, a batch size
`b ≥ 1` and the head info of the one call of `GetHeadInfo`, with last
irreversible block `L` and a head topology: when no cursor increment overflows
`uint64`, every fetch the loop makes succeeds with a batch that is not empty,
and the blocks are serialized and written without error, the run returns and
its calls of
`GetBlocksByHeight` are exactly those at the start heights `s + k * b`, for
every `k` with `s + k * b < L` and no other, in this order, each with
`NumBlocks = b`. -/
theorem generateBlockFile_pagination (d : Deps) (jsonRpcClient : JsonRPC)
    (amqpClient : KoinosRPC) (method : String) (f : File) (headInfo : GetHeadInfoResponse)
    (topology : BlockTopology) (s b fuel : Nat) (batch : Nat → GetBlocksByHeightResponse)
    (hb : 1 ≤ b)
    (hhead : headInfoOf d jsonRpcClient amqpClient method = (some headInfo, none))
    (htopo : headInfo.HeadTopology = some topology)
    (hover : ∀ k, s + k * b < headInfo.LastIrreversibleBlock → s + (k + 1) * b < 2 ^ 64)
    (hfetch : ∀ k, s + k * b < headInfo.LastIrreversibleBlock →
      fetch d jsonRpcClient amqpClient method (1 + k) topology.Id (s + k * b) b =
        (some (batch k), none) ∧ (batch k).BlockItems ≠ [])
    (hmarshal : ∀ k, s + k * b < headInfo.LastIrreversibleBlock →
      ∀ item ∈ (batch k).BlockItems, ∃ data, d.marshalBlock item.Block = .ok data)
    (hwrite : ∀ n str, f.writeErr n str = none)
    (hfuel : headInfo.LastIrreversibleBlock - s < fuel) :
    ∃ n, (∀ k, s + k * b < headInfo.LastIrreversibleBlock ↔ k < n) ∧
      (generateBlockFile d jsonRpcClient amqpClient method f s b fuel).status = .returned ∧
      fetchCalls (generateBlockFile d jsonRpcClient amqpClient method f s b fuel).events =
        ((List.range n).map fun k => (s + k * b, b)) ∧
      headInfoCalls (generateBlockFile d jsonRpcClient amqpClient method f s b fuel).events =
        1 := by
  obtain ⟨n, hlt, hL, hn⟩ := exists_first_page s b headInfo.LastIrreversibleBlock hb
  have hiff : ∀ k, s + k * b < headInfo.LastIrreversibleBlock ↔ k < n := by
    intro k
    constructor
    · intro h
      by_contra hk
      have : n * b ≤ k * b := Nat.mul_le_mul_right b (by omega)
      omega
    · exact hlt k
  have hloop := generateLoop_paginates d jsonRpcClient amqpClient method f headInfo topology b
    htopo hwrite n fuel s 1 0 batch (by omega) hlt hL
    (fun k hk => hover k (hlt k hk))
    (fun k hk => ⟨(hfetch k (hlt k hk)).1, (hfetch k (hlt k hk)).2, hmarshal k (hlt k hk)⟩)
  refine ⟨n, hiff, ?_, ?_, ?_⟩
  · simp [generateBlockFile, hhead, hloop.1]
  · simp [generateBlockFile, hhead, fetchCalls_append, fetchCalls, hloop.2.1]
  · simp [generateBlockFile, hhead, headInfoCalls_append, headInfoCalls, hloop.2.2]

/-- The instances of `generateBlockFile_pagination` of scenarios B and A: with
`L = 25000`, `b = 10000`, `s = 1` the fetches start at 1, 10001 and 20001;
with `L = 0`, `s = 1` there is no fetch. -/
theorem generateBlockFile_pagination_witness :
    fetchCalls (generateBlockFile Sample.deps (Sample.jsonRpc 25000 none none)
        (NewKoinosRPC (Sample.replying [])) methodDefault (Sample.file []) 1 10000
        25000).events = [(1, 10000), (10001, 10000), (20001, 10000)] ∧
      fetchCalls (generateBlockFile Sample.deps (Sample.jsonRpc 0 none none)
        (NewKoinosRPC (Sample.replying [])) methodDefault (Sample.file []) 1 10000
        1).events = [] := by
  constructor
  · obtain ⟨n, hn, -, hcalls, -⟩ := generateBlockFile_pagination Sample.deps
      (Sample.jsonRpc 25000 none none) (NewKoinosRPC (Sample.replying [])) methodDefault
      (Sample.file []) (Sample.headInfo 25000) { Id := [1], Height := 25002, Previous := [0] }
      1 10000 25000
      (fun k => { BlockItems := [Sample.itemAt (1 + k * 10000)] })
      (by decide) rfl rfl
      (fun k hk => by simp [Sample.headInfo] at hk; omega)
      (fun k _ => by simp [fetch, methodDefault, Sample.jsonRpc])
      (fun k _ item hitem => by
        simp at hitem; subst hitem; exact ⟨_, Sample.marshalBlock_blockAt _⟩)
      (fun _ _ => rfl) (by simp [Sample.headInfo])
    have h3 : n = 3 := by
      have h2 := (hn 2).1 (by simp [Sample.headInfo])
      have h3 := (hn 3).not.1 (by simp [Sample.headInfo])
      omega
    rw [hcalls, h3]
    rfl
  · obtain ⟨n, hn, -, hcalls, -⟩ := generateBlockFile_pagination Sample.deps
      (Sample.jsonRpc 0 none none) (NewKoinosRPC (Sample.replying [])) methodDefault
      (Sample.file []) (Sample.headInfo 0) { Id := [1], Height := 2, Previous := [0] }
      1 10000 1
      (fun k => { BlockItems := [Sample.itemAt (1 + k * 10000)] })
      (by decide) rfl rfl
      (fun k hk => by simp [Sample.headInfo] at hk)
      (fun k hk => by simp [Sample.headInfo] at hk)
      (fun k hk => by simp [Sample.headInfo] at hk)
      (fun _ _ => rfl) (by simp [Sample.headInfo])
    have h0 : n = 0 := by
      have h := (hn 0).not.1 (by simp [Sample.headInfo])
      omega
    rw [hcalls, h0]
    rfl

/-- C3 fails as stated. With `L = 25000`, `b = 10000`, `s = 1`, no overflow and
every fetch answered with a batch that is not empty, the fetches are not those
at 1, 10001 and 20001: when the first write to the file fails, or the first
block does not serialize, the run ends in `os.Exit(1)` after the one fetch at
height 1; when the head info carries no head topology, it ends in a nil
pointer panic before any fetch. -/
theorem generateBlockFile_pagination_local_failure :
    ((generateBlockFile Sample.deps (Sample.jsonRpc 25000 none none)
        (NewKoinosRPC (Sample.replying [])) methodDefault Sample.fullFile 1 10000 4).status =
        .exit 1 ∧
      fetchCalls (generateBlockFile Sample.deps (Sample.jsonRpc 25000 none none)
        (NewKoinosRPC (Sample.replying [])) methodDefault Sample.fullFile 1 10000 4).events =
        [(1, 10000)]) ∧
    ((generateBlockFile Sample.deps (Sample.jsonRpc 25000 none (some [Sample.foreignItem]))
        (NewKoinosRPC (Sample.replying [])) methodDefault (Sample.file []) 1 10000 4).status =
        .exit 1 ∧
      fetchCalls (generateBlockFile Sample.deps
        (Sample.jsonRpc 25000 none (some [Sample.foreignItem]))
        (NewKoinosRPC (Sample.replying [])) methodDefault (Sample.file []) 1 10000 4).events =
        [(1, 10000)]) ∧
    ((generateBlockFile Sample.deps (Sample.jsonRpcNoTopology 25000)
        (NewKoinosRPC (Sample.replying [])) methodDefault (Sample.file []) 1 10000 4).status =
        .panic nilDereference ∧
      fetchCalls (generateBlockFile Sample.deps (Sample.jsonRpcNoTopology 25000)
        (NewKoinosRPC (Sample.replying [])) methodDefault (Sample.file []) 1 10000 4).events =
        []) := by
  refine ⟨⟨?_, ?_⟩, ⟨?_, ?_⟩, ⟨?_, ?_⟩⟩ <;>
    simp [generateBlockFile, headInfoOf, generateLoop, Sample.headInfo, fetch, methodDefault,
      Sample.jsonRpc, Sample.jsonRpcNoTopology, saveBlocks, Sample.deps, Sample.itemAt,
      Sample.blockAt, Sample.foreignItem, Sample.file, Sample.fullFile, fetchCalls]

/-- C6 (amended): monotonic pagination and termination of `generateBlockFile`
for a batch size `b ≥ 1` whose cursor increments do not overflow `uint64`.
With every fetch of the loop succeeding on a batch that is not empty and saved
without error, there is a first index `n` at which the cursor `s + n * b` is at
or above the last irreversible block captured before the loop, and with fuel
for more than `n` iterations the run returns after exactly `n` fetches, whose
start heights `s, s + b, ...` are strictly increasing with stride `b`. -/
theorem generateBlockFile_monotonic_termination (d : Deps) (jsonRpcClient : JsonRPC)
    (amqpClient : KoinosRPC) (method : String) (f : File) (headInfo : GetHeadInfoResponse)
    (topology : BlockTopology) (s b : Nat) (batch : Nat → GetBlocksByHeightResponse)
    (hb : 1 ≤ b)
    (hhead : headInfoOf d jsonRpcClient amqpClient method = (some headInfo, none))
    (htopo : headInfo.HeadTopology = some topology)
    (hover : ∀ k, s + k * b < headInfo.LastIrreversibleBlock → s + (k + 1) * b < 2 ^ 64)
    (hfetch : ∀ k, s + k * b < headInfo.LastIrreversibleBlock →
      fetch d jsonRpcClient amqpClient method (1 + k) topology.Id (s + k * b) b =
        (some (batch k), none) ∧ (batch k).BlockItems ≠ [])
    (hmarshal : ∀ k, s + k * b < headInfo.LastIrreversibleBlock →
      ∀ item ∈ (batch k).BlockItems, ∃ data, d.marshalBlock item.Block = .ok data)
    (hwrite : ∀ n str, f.writeErr n str = none) :
    ∃ n, (∀ k, k < n → s + k * b < headInfo.LastIrreversibleBlock) ∧
      headInfo.LastIrreversibleBlock ≤ s + n * b ∧
      ∀ fuel, n < fuel →
        (generateBlockFile d jsonRpcClient amqpClient method f s b fuel).status = .returned ∧
        (fetchCalls (generateBlockFile d jsonRpcClient amqpClient method f s b
          fuel).events).map Prod.fst = ((List.range n).map fun k => s + k * b) ∧
        List.Pairwise (fun x y => x < y) ((fetchCalls (generateBlockFile d jsonRpcClient
          amqpClient method f s b fuel).events).map Prod.fst) := by
  obtain ⟨n, hlt, hL, -⟩ := exists_first_page s b headInfo.LastIrreversibleBlock hb
  refine ⟨n, hlt, hL, ?_⟩
  intro fuel hfuel
  have hloop := generateLoop_paginates d jsonRpcClient amqpClient method f headInfo topology b
    htopo hwrite n fuel s 1 0 batch hfuel hlt hL
    (fun k hk => hover k (hlt k hk))
    (fun k hk => ⟨(hfetch k (hlt k hk)).1, (hfetch k (hlt k hk)).2, hmarshal k (hlt k hk)⟩)
  have hcalls : (fetchCalls (generateBlockFile d jsonRpcClient amqpClient method f s b
      fuel).events).map Prod.fst = ((List.range n).map fun k => s + k * b) := by
    simp [generateBlockFile, hhead, fetchCalls_append, fetchCalls, hloop.2.1, Function.comp_def]
  refine ⟨?_, hcalls, ?_⟩
  · simp [generateBlockFile, hhead, hloop.1]
  · rw [hcalls, List.pairwise_map]
    refine (List.pairwise_lt_range n).imp ?_
    intro x y hxy
    have : x * b < y * b := Nat.mul_lt_mul_of_pos_right hxy hb
    omega

/-- The instance of `generateBlockFile_monotonic_termination` of scenario B. -/
theorem generateBlockFile_monotonic_termination_witness :
    ∃ n, (∀ k, k < n → 1 + k * 10000 < 25000) ∧ 25000 ≤ 1 + n * 10000 ∧
      ∀ fuel, n < fuel →
        (generateBlockFile Sample.deps (Sample.jsonRpc 25000 none none)
          (NewKoinosRPC (Sample.replying [])) methodDefault (Sample.file []) 1 10000
          fuel).status = .returned ∧
        (fetchCalls (generateBlockFile Sample.deps (Sample.jsonRpc 25000 none none)
          (NewKoinosRPC (Sample.replying [])) methodDefault (Sample.file []) 1 10000
          fuel).events).map Prod.fst = ((List.range n).map fun k => 1 + k * 10000) ∧
        List.Pairwise (fun x y => x < y) ((fetchCalls (generateBlockFile Sample.deps
          (Sample.jsonRpc 25000 none none) (NewKoinosRPC (Sample.replying [])) methodDefault
          (Sample.file []) 1 10000 fuel).events).map Prod.fst) :=
  generateBlockFile_monotonic_termination Sample.deps
    (Sample.jsonRpc 25000 none none) (NewKoinosRPC (Sample.replying [])) methodDefault
    (Sample.file []) (Sample.headInfo 25000) { Id := [1], Height := 25002, Previous := [0] }
    1 10000 (fun k => { BlockItems := [Sample.itemAt (1 + k * 10000)] })
    (by decide) rfl rfl
    (fun k hk => by simp [Sample.headInfo] at hk; omega)
    (fun k _ => by simp [fetch, methodDefault, Sample.jsonRpc])
    (fun k _ item hitem => by
      simp at hitem; subst hitem; exact ⟨_, Sample.marshalBlock_blockAt _⟩)
    (fun _ _ => rfl)

/-- With a batch size of 0 the loop of the sample run never leaves the cursor 1. -/
theorem generateLoop_zero_stride_running :
    ∀ (fuel ctx w : Nat),
      (generateLoop Sample.deps (Sample.jsonRpc 25000 none none)
        (NewKoinosRPC (Sample.replying [])) methodDefault (Sample.file [])
        (Sample.headInfo 25000) 0 fuel 1 ctx w).status = .running := by
  intro fuel
  induction fuel with
  | zero => intro ctx w; rfl
  | succ fuel ih =>
    intro ctx w
    simp [generateLoop, Sample.headInfo, fetch, methodDefault, Sample.jsonRpc, saveBlocks,
      Sample.deps, Sample.itemAt, Sample.blockAt, Sample.file]
    exact ih _ _

/-- C6 fails as stated. With the batch size 0 (start height 1, last irreversible
block 25000, every fetch answered with one block) the loop never ends, and its
requested start heights 1, 1, 1 do not increase. With the start height
`2 ^ 64 - 2`, the batch size 5 and the last irreversible block `2 ^ 64 - 1` the
cursor wraps around: the second fetch starts at 3. -/
theorem generateBlockFile_zero_stride_or_overflow :
    (¬ ∃ fuel, (generateBlockFile Sample.deps (Sample.jsonRpc 25000 none none)
        (NewKoinosRPC (Sample.replying [])) methodDefault (Sample.file []) 1 0
        fuel).status ≠ .running) ∧
      fetchCalls (generateBlockFile Sample.deps (Sample.jsonRpc 25000 none none)
        (NewKoinosRPC (Sample.replying [])) methodDefault (Sample.file []) 1 0
        3).events = [(1, 0), (1, 0), (1, 0)] ∧
      fetchCalls (generateBlockFile Sample.deps (Sample.jsonRpc 18446744073709551615 none none)
        (NewKoinosRPC (Sample.replying [])) methodDefault (Sample.file [])
        18446744073709551614 5 2).events = [(18446744073709551614, 5), (3, 5)] := by
  refine ⟨?_, ?_, ?_⟩
  · rintro ⟨fuel, h⟩
    apply h
    simp [generateBlockFile, headInfoOf, methodDefault, Sample.jsonRpc]
    exact generateLoop_zero_stride_running fuel 1 0
  · simp [generateBlockFile, headInfoOf, generateLoop, Sample.headInfo, fetch, methodDefault,
      Sample.jsonRpc, saveBlocks, Sample.deps, Sample.itemAt, Sample.blockAt, Sample.file,
      fetchCalls]
  · simp [generateBlockFile, headInfoOf, generateLoop, Sample.headInfo, fetch, methodDefault,
      Sample.jsonRpc, saveBlocks, Sample.deps, Sample.itemAt, Sample.blockAt, Sample.file,
      fetchCalls]

/-- C7 (as the code behaves): when the first fetch of the archive loop succeeds
with an empty `BlockItems`, nothing is appended to the file and the iteration
ends in the runtime panic of `blocks.BlockItems[0]`, index out of range. -/
theorem generateBlockFile_empty_batch_panics (d : Deps) (jsonRpcClient : JsonRPC)
    (amqpClient : KoinosRPC) (method : String) (f : File) (headInfo : GetHeadInfoResponse)
    (topology : BlockTopology) (s b fuel : Nat)
    (hhead : headInfoOf d jsonRpcClient amqpClient method = (some headInfo, none))
    (htopo : headInfo.HeadTopology = some topology)
    (hlt : s < headInfo.LastIrreversibleBlock)
    (hfetch : fetch d jsonRpcClient amqpClient method 1 topology.Id s b =
      (some { BlockItems := [] }, none)) :
    (generateBlockFile d jsonRpcClient amqpClient method f s b (fuel + 1)).status =
        .panic indexOutOfRange ∧
      written (generateBlockFile d jsonRpcClient amqpClient method f s b (fuel + 1)).events =
        [] := by
  simp [generateBlockFile, hhead, generateLoop, hlt, htopo, hfetch, saveBlocks, written]

/-- The instance of `generateBlockFile_empty_batch_panics` at a node with last
irreversible block 25000 that answers the fetch at height 1 with no block. -/
theorem generateBlockFile_empty_batch_panics_witness :
    (generateBlockFile Sample.deps (Sample.jsonRpc 25000 none (some []))
        (NewKoinosRPC (Sample.replying [])) methodDefault (Sample.file []) 1 10000 1).status =
        .panic indexOutOfRange ∧
      written (generateBlockFile Sample.deps (Sample.jsonRpc 25000 none (some []))
        (NewKoinosRPC (Sample.replying [])) methodDefault (Sample.file []) 1 10000 1).events =
        [] :=
  generateBlockFile_empty_batch_panics Sample.deps (Sample.jsonRpc 25000 none (some []))
    (NewKoinosRPC (Sample.replying [])) methodDefault (Sample.file []) (Sample.headInfo 25000)
    { Id := [1], Height := 25002, Previous := [0] } 1 10000 0 rfl rfl
    (by simp [Sample.headInfo]) rfl

/-! ### base64 -/

namespace base64

theorem decodeMap_encode (v : Nat) (hv : v < 64) : decodeMap (encode v) = some v := by
  unfold encode decodeMap
  split_ifs <;> simp_all [Fin.ofNat] <;> omega

theorem encode_val (v : Nat) : 43 ≤ (encode v).val ∧ (encode v).val ≠ 61 := by
  unfold encode
  split_ifs
  · simp [Fin.ofNat]; omega
  · simp [Fin.ofNat]; omega
  · simp [Fin.ofNat]; omega
  · decide
  · decide

theorem encode_ne (v : Nat) : encode v ≠ 10 ∧ encode v ≠ 13 ∧ encode v ≠ padChar := by
  have h := encode_val v
  refine ⟨?_, ?_, ?_⟩ <;> intro heq <;> rw [heq] at h <;> revert h <;> decide

theorem decodeMap_padChar : decodeMap padChar = none := by decide

theorem isLine_EncodeToString (data : List Byte) : isLine (EncodeToString data) := by
  induction data using EncodeToString.induct with
  | case1 b0 b1 b2 rest ih =>
    intro c hc
    simp only [EncodeToString, List.mem_cons] at hc
    rcases hc with h | h | h | h | h
    · rw [h]; exact ⟨(encode_ne _).1, (encode_ne _).2.1⟩
    · rw [h]; exact ⟨(encode_ne _).1, (encode_ne _).2.1⟩
    · rw [h]; exact ⟨(encode_ne _).1, (encode_ne _).2.1⟩
    · rw [h]; exact ⟨(encode_ne _).1, (encode_ne _).2.1⟩
    · exact ih c h
  | case2 b0 b1 =>
    intro c hc
    simp only [EncodeToString, List.mem_cons, List.mem_singleton, List.not_mem_nil,
      or_false] at hc
    rcases hc with h | h | h | h
    · rw [h]; exact ⟨(encode_ne _).1, (encode_ne _).2.1⟩
    · rw [h]; exact ⟨(encode_ne _).1, (encode_ne _).2.1⟩
    · rw [h]; exact ⟨(encode_ne _).1, (encode_ne _).2.1⟩
    · rw [h]; decide
  | case3 b0 =>
    intro c hc
    simp only [EncodeToString, List.mem_cons, List.mem_singleton, List.not_mem_nil,
      or_false] at hc
    rcases hc with h | h | h | h
    · rw [h]; exact ⟨(encode_ne _).1, (encode_ne _).2.1⟩
    · rw [h]; exact ⟨(encode_ne _).1, (encode_ne _).2.1⟩
    · rw [h]; decide
    · rw [h]; decide
  | case4 =>
    intro c hc
    simp [EncodeToString] at hc

theorem ofNat_val (b : Byte) : (Fin.ofNat b.val : Fin 256) = b := by
  apply Fin.ext
  simp [Fin.ofNat, Nat.mod_eq_of_lt b.isLt]

theorem decodeQuanta_EncodeToString (data : List Byte) :
    decodeQuanta (EncodeToString data) = .ok data := by
  induction data using EncodeToString.induct with
  | case1 b0 b1 b2 rest ih =>
    have h0 := b0.isLt
    have h1 := b1.isLt
    have h2 := b2.isLt
    simp only [EncodeToString, decodeQuanta]
    rw [decodeMap_encode _ (Nat.mod_lt _ (by norm_num)),
      decodeMap_encode _ (Nat.mod_lt _ (by norm_num)),
      decodeMap_encode _ (Nat.mod_lt _ (by norm_num)),
      decodeMap_encode _ (Nat.mod_lt _ (by norm_num))]
    simp only [ih]
    have e0 : ((b0.val * 65536 + b1.val * 256 + b2.val) / 262144 % 64 * 262144 +
        (b0.val * 65536 + b1.val * 256 + b2.val) / 4096 % 64 * 4096 +
        (b0.val * 65536 + b1.val * 256 + b2.val) / 64 % 64 * 64 +
        (b0.val * 65536 + b1.val * 256 + b2.val) % 64) =
        b0.val * 65536 + b1.val * 256 + b2.val := by omega
    rw [e0]
    have e1 : (b0.val * 65536 + b1.val * 256 + b2.val) / 65536 = b0.val := by omega
    have e2 : (b0.val * 65536 + b1.val * 256 + b2.val) / 256 % 256 = b1.val := by omega
    have e3 : (b0.val * 65536 + b1.val * 256 + b2.val) % 256 = b2.val := by omega
    rw [e1, e2, e3, ofNat_val, ofNat_val, ofNat_val]
  | case2 b0 b1 =>
    have h0 := b0.isLt
    have h1 := b1.isLt
    simp only [EncodeToString, decodeQuanta]
    rw [decodeMap_encode _ (Nat.mod_lt _ (by norm_num)),
      decodeMap_encode _ (Nat.mod_lt _ (by norm_num)),
      decodeMap_encode _ (Nat.mod_lt _ (by norm_num)), decodeMap_padChar]
    have e0 : ((b0.val * 65536 + b1.val * 256) / 262144 % 64 * 262144 +
        (b0.val * 65536 + b1.val * 256) / 4096 % 64 * 4096 +
        (b0.val * 65536 + b1.val * 256) / 64 % 64 * 64) =
        b0.val * 65536 + b1.val * 256 := by omega
    have e1 : (b0.val * 65536 + b1.val * 256) / 65536 = b0.val := by omega
    have e2 : (b0.val * 65536 + b1.val * 256) / 256 % 256 = b1.val := by omega
    simp only [and_self, if_true, e0, e1, e2, ofNat_val]
  | case3 b0 =>
    have h0 := b0.isLt
    simp only [EncodeToString, decodeQuanta]
    rw [decodeMap_encode _ (Nat.mod_lt _ (by norm_num)),
      decodeMap_encode _ (Nat.mod_lt _ (by norm_num)), decodeMap_padChar]
    have e0 : ((b0.val * 65536) / 262144 % 64 * 262144 +
        (b0.val * 65536) / 4096 % 64 * 4096) = b0.val * 65536 := by omega
    have e1 : (b0.val * 65536) / 65536 = b0.val := by omega
    simp only [and_self, if_true, e0, e1, ofNat_val]
  | case4 => rfl

theorem DecodeString_EncodeToString (data : List Byte) :
    DecodeString (EncodeToString data) = .ok data := by
  have hfilter : (EncodeToString data).filter (fun c => c ≠ 10 ∧ c ≠ 13) =
      EncodeToString data := by
    apply List.filter_eq_self.mpr
    intro c hc
    have := isLine_EncodeToString data c hc
    simp [this.1, this.2]
  rw [DecodeString, hfilter, decodeQuanta_EncodeToString]

end base64

/-! ### Reading lines -/

theorem readSliceAux_short (rest : List Byte) :
    ∀ (line : List Byte) (room : Nat), (∀ c ∈ line, c ≠ 10) → line.length < room →
      readSliceAux 10 room (fileBytes (line ++ 10 :: rest)) =
        ((line ++ [10], none), fileBytes rest) := by
  intro line
  induction line with
  | nil =>
    intro room _ hroom
    obtain ⟨room, rfl⟩ : ∃ m, room = m + 1 := ⟨room - 1, by simp at hroom; omega⟩
    simp [readSliceAux, fileBytes]
  | cons c line ih =>
    intro room hline hroom
    obtain ⟨room, rfl⟩ : ∃ m, room = m + 1 := ⟨room - 1, by simp at hroom; omega⟩
    have hc : c ≠ 10 := hline c (List.mem_cons_self _ _)
    have := ih room (fun x hx => hline x (List.mem_cons_of_mem _ hx))
      (by simp at hroom; omega)
    simp only [fileBytes, List.map_append, List.map_cons, List.cons_append] at this ⊢
    simp [readSliceAux, hc, this]

theorem readSliceAux_long (rest : List Byte) :
    ∀ (line : List Byte) (room : Nat), (∀ c ∈ line, c ≠ 10) → room ≤ line.length →
      readSliceAux 10 room (fileBytes (line ++ 10 :: rest)) =
        ((line.take room, some .ErrBufferFull), fileBytes (line.drop room ++ 10 :: rest)) := by
  intro line
  induction line with
  | nil =>
    intro room _ hroom
    have : room = 0 := by simpa using hroom
    subst this
    simp [readSliceAux]
  | cons c line ih =>
    intro room hline hroom
    cases room with
    | zero => simp [readSliceAux]
    | succ room =>
      have hc : c ≠ 10 := hline c (List.mem_cons_self _ _)
      have := ih room (fun x hx => hline x (List.mem_cons_of_mem _ hx))
        (by simp at hroom; omega)
      simp only [fileBytes, List.map_append, List.map_cons, List.cons_append] at this ⊢
      simp [readSliceAux, hc, this]

theorem getLast?_ne_of_not_mem (c : Byte) (line : List Byte) (h : c ∉ line) :
    line.getLast? ≠ some c := by
  intro hl
  exact h (List.mem_of_getLast?_eq_some hl)

theorem ReadLine_short (size : Nat) (line rest : List Byte) (hline : isLine line)
    (hlen : line.length < size) :
    Reader.ReadLine { size := size, src := fileBytes (line ++ 10 :: rest) } =
      ((line, false, none), { size := size, src := fileBytes rest }) := by
  have h10 : ∀ c ∈ line, c ≠ 10 := fun c hc => (hline c hc).1
  have h13 : (13 : Byte) ∉ line := fun h => (hline 13 h).2 rfl
  have hlast : line.getLast? ≠ some 13 := getLast?_ne_of_not_mem 13 line h13
  simp [Reader.ReadLine, Reader.ReadSlice, readSliceAux_short rest line size h10 hlen, hlast]

theorem ReadLine_long (size : Nat) (line rest : List Byte) (hline : isLine line)
    (hlen : size ≤ line.length) :
    Reader.ReadLine { size := size, src := fileBytes (line ++ 10 :: rest) } =
      ((line.take size, true, none),
        { size := size, src := fileBytes (line.drop size ++ 10 :: rest) }) := by
  have h10 : ∀ c ∈ line, c ≠ 10 := fun c hc => (hline c hc).1
  have h13 : (13 : Byte) ∉ line.take size := fun h => (hline 13 (List.mem_of_mem_take h)).2 rfl
  have hlast : (line.take size).getLast? ≠ some 13 := getLast?_ne_of_not_mem 13 _ h13
  simp [Reader.ReadLine, Reader.ReadSlice, readSliceAux_long rest line size h10 hlen, hlast]

theorem readLineLoop_line (size : Nat) (hsize : 1 ≤ size) (rest : List Byte) :
    ∀ (fuel : Nat) (line ln : List Byte), isLine line → line.length < fuel →
      readLineLoop fuel { size := size, src := fileBytes (line ++ 10 :: rest) } ln =
        some ((ln ++ line, none), { size := size, src := fileBytes rest }) := by
  intro fuel
  induction fuel with
  | zero => intro line ln _ h; omega
  | succ fuel ih =>
    intro line ln hline hfuel
    by_cases hlen : line.length < size
    · simp [readLineLoop, ReadLine_short size line rest hline hlen]
    · have hlen2 : size ≤ line.length := by omega
      have hdrop : isLine (line.drop size) := fun c hc => hline c (List.mem_of_mem_drop hc)
      have := ih (line.drop size) (ln ++ line.take size) hdrop (by simp; omega)
      simp [readLineLoop, ReadLine_long size line rest hline hlen2, this]

theorem readLine_line (size : Nat) (hsize : 1 ≤ size) (line rest : List Byte)
    (hline : isLine line) :
    readLine { size := size, src := fileBytes (line ++ 10 :: rest) } =
      some ((line, none), { size := size, src := fileBytes rest }) := by
  have := readLineLoop_line size hsize rest
    ((fileBytes (line ++ 10 :: rest)).length + 1) line [] hline (by simp [fileBytes]; omega)
  simpa [readLine] using this

theorem readLine_eof (size : Nat) (hsize : 1 ≤ size) :
    readLine { size := size, src := fileBytes [] } =
      some (([], some .EOF), { size := size, src := fileBytes [] }) := by
  obtain ⟨size, rfl⟩ : ∃ m, size = m + 1 := ⟨size - 1, by omega⟩
  simp [readLine, readLineLoop, Reader.ReadLine, Reader.ReadSlice, readSliceAux, fileBytes]

/-! ### The replay loop -/

theorem archive_cons (line : List Byte) (lines : List (List Byte)) :
    archive (line :: lines) = line ++ 10 :: archive lines := by
  simp [archive]

theorem length_le_archive (lines : List (List Byte)) :
    lines.length ≤ (archive lines).length := by
  induction lines with
  | nil => simp
  | cons line lines ih => rw [archive_cons]; simp; omega

theorem NewReader_eq (src : List ReadItem) : NewReader src = { size := 4096, src := src } := rfl

theorem readEntry_line (d : Deps) (size : Nat) (hsize : 1 ≤ size) (line rest : List Byte)
    (block : Block) (hline : isLine line) (hdec : decodesTo d line block) :
    readEntry d { size := size, src := fileBytes (line ++ 10 :: rest) } =
      some (.block [] block, { size := size, src := fileBytes rest }) := by
  obtain ⟨data, h1, h2⟩ := hdec
  simp [readEntry, readLine_line size hsize line rest hline, h1, h2]

theorem readEntry_eof (d : Deps) (size : Nat) (hsize : 1 ≤ size) :
    readEntry d { size := size, src := fileBytes [] } =
      some (.eof, { size := size, src := fileBytes [] }) := by
  simp [readEntry, readLine_eof size hsize]

theorem readBlockFileLoop_filter (d : Deps) (jsonRpcClient : JsonRPC) (amqpClient : KoinosRPC)
    (method : String) (startHeight size : Nat) (hsize : 1 ≤ size) :
    ∀ (lines : List (List Byte)) (blocks : List Block) (fuel ctx : Nat),
      List.Forall₂ (fun line block => isLine line ∧ decodesTo d line block ∧
        block.Header ≠ none) lines blocks →
      lines.length < fuel →
      (∀ k block, (blocks.filter (qualifies startHeight))[k]? = some block →
        (submit d jsonRpcClient amqpClient method (ctx + k) block).2 = none) →
      (readBlockFileLoop d jsonRpcClient amqpClient method startHeight fuel
          { size := size, src := fileBytes (archive lines) } ctx).status = .returned ∧
        appliedBlocks (readBlockFileLoop d jsonRpcClient amqpClient method startHeight fuel
          { size := size, src := fileBytes (archive lines) } ctx).events =
          blocks.filter (qualifies startHeight) ∧
        remoteCalls (readBlockFileLoop d jsonRpcClient amqpClient method startHeight fuel
          { size := size, src := fileBytes (archive lines) } ctx).events =
          (blocks.filter (qualifies startHeight)).map Event.ApplyBlock := by
  intro lines blocks fuel ctx hrel
  induction hrel generalizing fuel ctx with
  | nil =>
    intro hfuel _
    obtain ⟨fuel, rfl⟩ : ∃ m, fuel = m + 1 := ⟨fuel - 1, by omega⟩
    simp [readBlockFileLoop, archive, readEntry_eof d size hsize, appliedBlocks, remoteCalls]
  | @cons line block lines blocks hhead _ ih =>
    intro hfuel hsubmit
    obtain ⟨fuel, rfl⟩ : ∃ m, fuel = m + 1 := ⟨fuel - 1, by omega⟩
    obtain ⟨hline, hdec, hheader⟩ := hhead
    obtain ⟨header, hh⟩ := Option.ne_none_iff_exists'.mp hheader
    rw [archive_cons]
    by_cases hq : header.Height ≥ startHeight
    · have hqual : qualifies startHeight block = true := by simp [qualifies, hh, hq]
      have h0 := hsubmit 0 block (by simp [List.filter_cons, hqual])
      have hrec := ih fuel (ctx + 1) (by simp at hfuel; omega) (fun k b hk => by
        have := hsubmit (k + 1) b (by simpa [List.filter_cons, hqual] using hk)
        rwa [show ctx + (k + 1) = ctx + 1 + k by omega] at this)
      simp at h0
      simp [readBlockFileLoop, readEntry_line d size hsize line _ block hline hdec, hh, hq, h0,
        appliedBlocks_append, appliedBlocks, remoteCalls_append, remoteCalls, hrec.1, hrec.2.1,
        hrec.2.2, List.filter_cons, hqual]
    · have hqual : qualifies startHeight block = false := by simp [qualifies, hh, hq]
      have hrec := ih fuel ctx (by simp at hfuel; omega) (fun k b hk => by
        exact hsubmit k b (by simpa [List.filter_cons, hqual] using hk))
      simp [readBlockFileLoop, readEntry_line d size hsize line _ block hline hdec, hh, hq,
        appliedBlocks_append, appliedBlocks, remoteCalls_append, remoteCalls, hrec.1, hrec.2.1,
        hrec.2.2, List.filter_cons, hqual]

theorem getLast?_cons_of_getLast? (x y : Event) (l : List Event) (h : l.getLast? = some y) :
    (x :: l).getLast? = some y := by
  cases l with
  | nil => simp at h
  | cons z l => simpa [List.getLast?_cons_cons] using h

theorem readBlockFileLoop_fail_stop (d : Deps) (jsonRpcClient : JsonRPC)
    (amqpClient : KoinosRPC) (method : String) (startHeight size : Nat) (hsize : 1 ≤ size) :
    ∀ (lines : List (List Byte)) (blocks : List Block) (fuel ctx k : Nat) (failing : Block)
      (err : String),
      List.Forall₂ (fun line block => isLine line ∧ decodesTo d line block ∧
        block.Header ≠ none) lines blocks →
      lines.length < fuel →
      (blocks.filter (qualifies startHeight))[k]? = some failing →
      (submit d jsonRpcClient amqpClient method (ctx + k) failing).2 = some err →
      (∀ i block, i < k → (blocks.filter (qualifies startHeight))[i]? = some block →
        (submit d jsonRpcClient amqpClient method (ctx + i) block).2 = none) →
      (readBlockFileLoop d jsonRpcClient amqpClient method startHeight fuel
          { size := size, src := fileBytes (archive lines) } ctx).status = .exit 1 ∧
        appliedBlocks (readBlockFileLoop d jsonRpcClient amqpClient method startHeight fuel
          { size := size, src := fileBytes (archive lines) } ctx).events =
          (blocks.filter (qualifies startHeight)).take (k + 1) ∧
        (readBlockFileLoop d jsonRpcClient amqpClient method startHeight fuel
          { size := size, src := fileBytes (archive lines) } ctx).events.getLast? =
          some (.logError err) := by
  intro lines blocks fuel ctx k failing err hrel
  induction hrel generalizing fuel ctx k with
  | nil =>
    intro _ hk
    simp at hk
  | @cons line block lines blocks hhead _ ih =>
    intro hfuel hk hfail hbefore
    obtain ⟨fuel, rfl⟩ : ∃ m, fuel = m + 1 := ⟨fuel - 1, by omega⟩
    obtain ⟨hline, hdec, hheader⟩ := hhead
    obtain ⟨header, hh⟩ := Option.ne_none_iff_exists'.mp hheader
    rw [archive_cons]
    by_cases hq : header.Height ≥ startHeight
    · have hqual : qualifies startHeight block = true := by simp [qualifies, hh, hq]
      cases k with
      | zero =>
        have hb : block = failing := by simpa [List.filter_cons, hqual] using hk
        subst hb
        simp at hfail
        simp [readBlockFileLoop, readEntry_line d size hsize line _ block hline hdec, hh, hq,
          hfail, appliedBlocks, List.filter_cons, hqual]
      | succ k =>
        have h0 := hbefore 0 block (by omega) (by simp [List.filter_cons, hqual])
        simp at h0
        have hrec := ih fuel (ctx + 1) k (by simp at hfuel; omega)
          (by simpa [List.filter_cons, hqual] using hk)
          (by rwa [show ctx + (k + 1) = ctx + 1 + k by omega] at hfail)
          (fun i b hi hib => by
            have := hbefore (i + 1) b (by omega) (by simpa [List.filter_cons, hqual] using hib)
            rwa [show ctx + (i + 1) = ctx + 1 + i by omega] at this)
        simp [readBlockFileLoop, readEntry_line d size hsize line _ block hline hdec, hh, hq,
          h0, appliedBlocks_append, appliedBlocks, hrec.1, hrec.2.1,
          List.filter_cons, hqual]
        exact getLast?_cons_of_getLast? _ _ _ hrec.2.2
    · have hqual : qualifies startHeight block = false := by simp [qualifies, hh, hq]
      have hrec := ih fuel ctx k (by simp at hfuel; omega)
        (by simpa [List.filter_cons, hqual] using hk) hfail
        (fun i b hi hib => hbefore i b hi (by simpa [List.filter_cons, hqual] using hib))
      simp [readBlockFileLoop, readEntry_line d size hsize line _ block hline hdec, hh, hq,
        appliedBlocks_append, appliedBlocks, hrec.1, hrec.2.1, List.filter_cons, hqual]
      exact getLast?_cons_of_getLast? _ _ _ hrec.2.2

/-- C1: the height filter of `readBlockFile`. For an archive file whose lines
each decode to a block with a header, and a start height, when every submit
call the loop makes succeeds, the loop reads the file to its end and the
blocks handed to `ApplyBlock` are exactly the entries of height at or above
the start height, in the order of the file. These calls of `ApplyBlock` are
all the remote calls of the run: no remote call of any kind is made for an
entry below the start height, and the number of remote calls is the number of
entries at or above it. -/
theorem readBlockFile_height_filter (d : Deps) (jsonRpcClient : JsonRPC)
    (amqpClient : KoinosRPC) (method : String) (startHeight : Nat) (f : File)
    (lines : List (List Byte)) (blocks : List Block)
    (hfile : f.src = fileBytes (archive lines))
    (hlines : List.Forall₂ (fun line block => isLine line ∧ decodesTo d line block ∧
      block.Header ≠ none) lines blocks)
    (hsubmit : ∀ k block, (blocks.filter (qualifies startHeight))[k]? = some block →
      (submit d jsonRpcClient amqpClient method k block).2 = none) :
    (readBlockFile d jsonRpcClient amqpClient method startHeight f).status = .returned ∧
      appliedBlocks (readBlockFile d jsonRpcClient amqpClient method startHeight f).events =
        blocks.filter (qualifies startHeight) ∧
      (appliedBlocks (readBlockFile d jsonRpcClient amqpClient method startHeight
        f).events).length = (blocks.filter (qualifies startHeight)).length ∧
      remoteCalls (readBlockFile d jsonRpcClient amqpClient method startHeight f).events =
        (blocks.filter (qualifies startHeight)).map Event.ApplyBlock ∧
      (remoteCalls (readBlockFile d jsonRpcClient amqpClient method startHeight
        f).events).length = (blocks.filter (qualifies startHeight)).length := by
  have h := readBlockFileLoop_filter d jsonRpcClient amqpClient method startHeight 4096
    (by norm_num) lines blocks (f.src.length + 1) 0 hlines
    (by rw [hfile]; have := length_le_archive lines; simp [fileBytes]; omega)
    (fun k b hk => by simpa using hsubmit k b hk)
  simp only [readBlockFile, NewReader_eq, hfile] at h ⊢
  exact ⟨h.1, h.2.1, by rw [h.2.1], h.2.2, by rw [h.2.2, List.length_map]⟩

/-- The blocks at the heights 1 to 5 and their lines under the sample codec. -/
theorem Sample.lines_decode (heights : List Nat) :
    List.Forall₂ (fun line block => isLine line ∧ decodesTo Sample.deps line block ∧
      block.Header ≠ none) (heights.map Sample.lineAt) (heights.map Sample.blockAt) := by
  rw [List.forall₂_map_left_iff, List.forall₂_map_right_iff, List.forall₂_same]
  intro h _
  refine ⟨base64.isLine_EncodeToString _, ⟨_, base64.DecodeString_EncodeToString _, ?_⟩, ?_⟩
  · exact Sample.unmarshalBlock_inverts _ _ (Sample.marshalBlock_blockAt h)
  · simp [Sample.blockAt]

/-- The instance of `readBlockFile_height_filter` of scenario C: the heights 1
to 5 replayed from the height 3. -/
theorem readBlockFile_height_filter_witness :
    (readBlockFile Sample.deps (Sample.jsonRpc 25000 none none)
        (NewKoinosRPC (Sample.replying [0])) methodDefault 3
        (Sample.file (archive ([1, 2, 3, 4, 5].map Sample.lineAt)))).status = .returned ∧
      appliedBlocks (readBlockFile Sample.deps (Sample.jsonRpc 25000 none none)
        (NewKoinosRPC (Sample.replying [0])) methodDefault 3
        (Sample.file (archive ([1, 2, 3, 4, 5].map Sample.lineAt)))).events =
        [Sample.blockAt 3, Sample.blockAt 4, Sample.blockAt 5] ∧
      (appliedBlocks (readBlockFile Sample.deps (Sample.jsonRpc 25000 none none)
        (NewKoinosRPC (Sample.replying [0])) methodDefault 3
        (Sample.file (archive ([1, 2, 3, 4, 5].map Sample.lineAt)))).events).length = 3 ∧
      remoteCalls (readBlockFile Sample.deps (Sample.jsonRpc 25000 none none)
        (NewKoinosRPC (Sample.replying [0])) methodDefault 3
        (Sample.file (archive ([1, 2, 3, 4, 5].map Sample.lineAt)))).events =
        [.ApplyBlock (Sample.blockAt 3), .ApplyBlock (Sample.blockAt 4),
          .ApplyBlock (Sample.blockAt 5)] ∧
      (remoteCalls (readBlockFile Sample.deps (Sample.jsonRpc 25000 none none)
        (NewKoinosRPC (Sample.replying [0])) methodDefault 3
        (Sample.file (archive ([1, 2, 3, 4, 5].map Sample.lineAt)))).events).length = 3 :=
  readBlockFile_height_filter Sample.deps (Sample.jsonRpc 25000 none none)
    (NewKoinosRPC (Sample.replying [0])) methodDefault 3
    (Sample.file (archive ([1, 2, 3, 4, 5].map Sample.lineAt)))
    ([1, 2, 3, 4, 5].map Sample.lineAt) ([1, 2, 3, 4, 5].map Sample.blockAt) rfl
    (Sample.lines_decode [1, 2, 3, 4, 5])
    (fun k block _ => by simp [submit, methodDefault, Sample.jsonRpc])

/-- C9: fail-stop of `readBlockFile`. For an archive file whose lines each
decode to a block with a header, when a submit call returns an error and the
calls before it succeeded, the loop ends at that entry in `os.Exit(1)`, the
error being the last thing logged: the calls of `ApplyBlock` made are the
entries at or above the start height up to and including the one whose submit
failed, and no call follows it. -/
theorem readBlockFile_fail_stop (d : Deps) (jsonRpcClient : JsonRPC)
    (amqpClient : KoinosRPC) (method : String) (startHeight : Nat) (f : File)
    (lines : List (List Byte)) (blocks : List Block) (k : Nat) (failing : Block)
    (err : String)
    (hfile : f.src = fileBytes (archive lines))
    (hlines : List.Forall₂ (fun line block => isLine line ∧ decodesTo d line block ∧
      block.Header ≠ none) lines blocks)
    (hk : (blocks.filter (qualifies startHeight))[k]? = some failing)
    (hfail : (submit d jsonRpcClient amqpClient method k failing).2 = some err)
    (hbefore : ∀ i block, i < k → (blocks.filter (qualifies startHeight))[i]? = some block →
      (submit d jsonRpcClient amqpClient method i block).2 = none) :
    (readBlockFile d jsonRpcClient amqpClient method startHeight f).status = .exit 1 ∧
      appliedBlocks (readBlockFile d jsonRpcClient amqpClient method startHeight f).events =
        (blocks.filter (qualifies startHeight)).take (k + 1) ∧
      (readBlockFile d jsonRpcClient amqpClient method startHeight f).events.getLast? =
        some (.logError err) := by
  have h := readBlockFileLoop_fail_stop d jsonRpcClient amqpClient method startHeight 4096
    (by norm_num) lines blocks (f.src.length + 1) 0 k failing err hlines
    (by rw [hfile]; have := length_le_archive lines; simp [fileBytes]; omega)
    hk (by simpa using hfail) (fun i b hi hib => by simpa using hbefore i b hi hib)
  simp only [readBlockFile, NewReader_eq, hfile] at h ⊢
  exact h

/-- The instance of `readBlockFile_fail_stop` of scenario D: the heights 1 to 5
replayed from the height 3, the second submit call timing out. -/
theorem readBlockFile_fail_stop_witness :
    (readBlockFile Sample.deps (Sample.jsonRpc 25000 (some 1) none)
        (NewKoinosRPC (Sample.replying [0])) methodDefault 3
        (Sample.file (archive ([1, 2, 3, 4, 5].map Sample.lineAt)))).status = .exit 1 ∧
      appliedBlocks (readBlockFile Sample.deps (Sample.jsonRpc 25000 (some 1) none)
        (NewKoinosRPC (Sample.replying [0])) methodDefault 3
        (Sample.file (archive ([1, 2, 3, 4, 5].map Sample.lineAt)))).events =
        [Sample.blockAt 3, Sample.blockAt 4] ∧
      (readBlockFile Sample.deps (Sample.jsonRpc 25000 (some 1) none)
        (NewKoinosRPC (Sample.replying [0])) methodDefault 3
        (Sample.file (archive ([1, 2, 3, 4, 5].map Sample.lineAt)))).events.getLast? =
        some (.logError "rpc timeout ApplyBlock, context deadline exceeded") :=
  readBlockFile_fail_stop Sample.deps (Sample.jsonRpc 25000 (some 1) none)
    (NewKoinosRPC (Sample.replying [0])) methodDefault 3
    (Sample.file (archive ([1, 2, 3, 4, 5].map Sample.lineAt)))
    ([1, 2, 3, 4, 5].map Sample.lineAt) ([1, 2, 3, 4, 5].map Sample.blockAt) 1
    (Sample.blockAt 4) "rpc timeout ApplyBlock, context deadline exceeded" rfl
    (Sample.lines_decode [1, 2, 3, 4, 5]) (by decide)
    (by simp [submit, methodDefault, Sample.jsonRpc])
    (fun i block hi _ => by
      have : i = 0 := by omega
      subst this
      simp [submit, methodDefault, Sample.jsonRpc])

/-- C8 (as the code behaves): when the first read of the file fails, before
any data, with an error other than `io.EOF`, and deserializing no bytes gives
a block without header (as `proto.Unmarshal` does), the replay loop logs the
error and goes on in the same iteration with the empty line: it decodes it,
deserializes it and reads the height of the missing header, which ends the
run in a nil pointer panic. The next line is never read. -/
theorem readBlockFile_read_error_not_skipped (d : Deps) (jsonRpcClient : JsonRPC)
    (amqpClient : KoinosRPC) (method : String) (startHeight : Nat) (f : File) (msg : String)
    (rest : List ReadItem) (block : Block)
    (hsrc : f.src = .fail msg :: rest)
    (hempty : d.unmarshalBlock [] = .ok block) (hheader : block.Header = none) :
    readBlockFile d jsonRpcClient amqpClient method startHeight f =
      { events := [.logError msg], status := .panic nilDereference } := by
  simp [readBlockFile, hsrc, NewReader_eq, readBlockFileLoop, readEntry, readLine, readLineLoop,
    Reader.ReadLine, Reader.ReadSlice, readSliceAux, base64.DecodeString, base64.decodeQuanta,
    hempty, hheader, ReadError.Error, Run.after]

/-- The instance of `readBlockFile_read_error_not_skipped` at a file with the
blocks of heights 1 to 5 whose first read fails with an input/output error. -/
theorem readBlockFile_read_error_not_skipped_witness :
    readBlockFile Sample.deps (Sample.jsonRpc 25000 none none)
        (NewKoinosRPC (Sample.replying [0])) methodDefault 1
        (Sample.failingFile (archive ([1, 2, 3, 4, 5].map Sample.lineAt))) =
      { events := [.logError "read blocks.dat: input/output error"],
        status := .panic nilDereference } :=
  readBlockFile_read_error_not_skipped Sample.deps (Sample.jsonRpc 25000 none none)
    (NewKoinosRPC (Sample.replying [0])) methodDefault 1
    (Sample.failingFile (archive ([1, 2, 3, 4, 5].map Sample.lineAt)))
    "read blocks.dat: input/output error" _ Sample.emptyBlock rfl rfl rfl

/-! ### From archive to replay -/

theorem archive_append (xs ys : List (List Byte)) :
    archive (xs ++ ys) = archive xs ++ archive ys := by
  simp [archive]

/-- What the loop over a batch appends is the archive of the lines of the
blocks it got to, in order. -/
theorem saveBlocks_written (d : Deps) (f : File) :
    ∀ (items : List BlockItem) (w : Nat),
      ∃ blocks lines, List.Forall₂ (encodes d) blocks lines ∧
        written (saveBlocks d f w items).events = archive lines := by
  intro items
  induction items with
  | nil => intro w; exact ⟨[], [], List.Forall₂.nil, rfl⟩
  | cons item rest ih =>
    intro w
    cases hm : d.marshalBlock item.Block with
    | error e => exact ⟨[], [], List.Forall₂.nil, by simp [saveBlocks, hm, written, archive]⟩
    | ok data =>
      cases hw : f.writeErr w (base64.EncodeToString data ++ [10]) with
      | some e =>
        exact ⟨[], [], List.Forall₂.nil, by simp [saveBlocks, hm, hw, written, archive]⟩
      | none =>
        obtain ⟨blocks, lines, hrel, hwr⟩ := ih (w + 1)
        refine ⟨item.Block :: blocks, base64.EncodeToString data :: lines,
          List.Forall₂.cons ⟨data, hm, rfl⟩ hrel, ?_⟩
        simp [saveBlocks, hm, hw, written, hwr, archive_cons]

/-- When the loop over a batch runs to its end, what it appends is the archive
of the lines of all blocks of the batch, in order. -/
theorem saveBlocks_written_all (d : Deps) (f : File) :
    ∀ (items : List BlockItem) (w : Nat), (saveBlocks d f w items).status = .returned →
      ∃ lines, List.Forall₂ (encodes d) (items.map fun item => item.Block) lines ∧
        written (saveBlocks d f w items).events = archive lines := by
  intro items
  induction items with
  | nil => intro w _; exact ⟨[], List.Forall₂.nil, rfl⟩
  | cons item rest ih =>
    intro w hs
    cases hm : d.marshalBlock item.Block with
    | error e => simp [saveBlocks, hm] at hs
    | ok data =>
      cases hw : f.writeErr w (base64.EncodeToString data ++ [10]) with
      | some e => simp [saveBlocks, hm, hw] at hs
      | none =>
        obtain ⟨lines, hrel, hwr⟩ := ih (w + 1) (by simpa [saveBlocks, hm, hw] using hs)
        refine ⟨base64.EncodeToString data :: lines,
          List.Forall₂.cons ⟨data, hm, rfl⟩ hrel, ?_⟩
        simp [saveBlocks, hm, hw, written, hwr, archive_cons]

/-- What the loop of `generateBlockFile` appends is the archive of the lines of
a sequence of blocks. -/
theorem generateLoop_written (d : Deps) (jsonRpcClient : JsonRPC) (amqpClient : KoinosRPC)
    (method : String) (f : File) (headInfo : GetHeadInfoResponse) (b : Nat) :
    ∀ (fuel i ctx w : Nat),
      ∃ blocks lines, List.Forall₂ (encodes d) blocks lines ∧
        written (generateLoop d jsonRpcClient amqpClient method f headInfo b fuel i ctx
          w).events = archive lines := by
  intro fuel
  induction fuel with
  | zero => intro i ctx w; exact ⟨[], [], List.Forall₂.nil, rfl⟩
  | succ fuel ih =>
    intro i ctx w
    have hnil : ∀ evs : List Event, written evs = [] →
        ∃ blocks lines, List.Forall₂ (encodes d) blocks lines ∧ written evs = archive lines :=
      fun evs h => ⟨[], [], List.Forall₂.nil, by simp [h, archive]⟩
    unfold generateLoop
    split_ifs with hi
    · cases htopo : headInfo.HeadTopology with
      | none => exact hnil _ (by simp [written])
      | some topology =>
        simp only
        cases herr : (fetch d jsonRpcClient amqpClient method ctx topology.Id i b).2 with
        | some e => exact hnil _ (by simp [written])
        | none =>
          cases hres : (fetch d jsonRpcClient amqpClient method ctx topology.Id i b).1 with
          | none => exact hnil _ (by simp [written])
          | some resp =>
            simp only
            obtain ⟨blocks1, lines1, hrel1, hwr1⟩ := saveBlocks_written d f resp.BlockItems w
            split_ifs with hs
            · cases hhead : resp.BlockItems.head? with
              | none =>
                exact ⟨blocks1, lines1, hrel1, by simp [written_append, written, hwr1]⟩
              | some first =>
                cases hlast : resp.BlockItems.getLast? with
                | none =>
                  exact ⟨blocks1, lines1, hrel1, by simp [written_append, written, hwr1]⟩
                | some last =>
                  obtain ⟨blocks2, lines2, hrel2, hwr2⟩ :=
                    ih ((i + b) % 2 ^ 64) (ctx + 1) (w + resp.BlockItems.length)
                  refine ⟨blocks1 ++ blocks2, lines1 ++ lines2, List.rel_append hrel1 hrel2, ?_⟩
                  simp [written_append, written, hwr1, archive_append]
                  simpa using hwr2
            · exact ⟨blocks1, lines1, hrel1, by simp [written_append, written, hwr1]⟩
    · exact hnil _ (by simp [written])

/-- The replay side reads an archive back entry by entry. -/
theorem readEntries_archive (d : Deps) (size : Nat) (hsize : 1 ≤ size) :
    ∀ (lines : List (List Byte)) (blocks : List Block) (fuel : Nat),
      List.Forall₂ (fun line block => isLine line ∧ decodesTo d line block) lines blocks →
      lines.length < fuel →
      readEntries d fuel { size := size, src := fileBytes (archive lines) } = some blocks := by
  intro lines blocks fuel hrel
  induction hrel generalizing fuel with
  | nil =>
    intro hfuel
    obtain ⟨fuel, rfl⟩ : ∃ m, fuel = m + 1 := ⟨fuel - 1, by omega⟩
    simp [readEntries, archive, readEntry_eof d size hsize]
  | @cons line block lines blocks hhead _ ih =>
    intro hfuel
    obtain ⟨fuel, rfl⟩ : ∃ m, fuel = m + 1 := ⟨fuel - 1, by omega⟩
    rw [archive_cons]
    simp [readEntries, readEntry_line d size hsize line _ block hhead.1 hhead.2,
      ih fuel (by simp at hfuel; omega)]

/-- The replay side reads back the blocks of which a file holds the lines. -/
theorem readEntries_encoded (d : Deps)
    (hinv : ∀ block data, d.marshalBlock block = .ok data → d.unmarshalBlock data = .ok block)
    (blocks : List Block) (lines : List (List Byte))
    (hrel : List.Forall₂ (encodes d) blocks lines) :
    readEntries d ((archive lines).length + 1) (NewReader (fileBytes (archive lines))) =
      some blocks := by
  rw [NewReader_eq]
  apply readEntries_archive d 4096 (by norm_num) lines blocks
  · refine (List.Forall₂.flip hrel).imp ?_
    rintro line block ⟨data, hm, rfl⟩
    exact ⟨base64.isLine_EncodeToString data, data, base64.DecodeString_EncodeToString data,
      hinv block data hm⟩
  · have := length_le_archive lines
    omega

/-- C2: the round trip from archive to replay, the deserializer inverting the
serializer. Whatever a run of `generateBlockFile` appends to an empty file is
the lines of a sequence of blocks, each the base64 text of the serialized
block followed by a line feed, and from that file the replay side (`readLine`,
base64 decoding, deserialization, to the end of the file) gets exactly these
blocks, in the same order, one for each line, whatever the length of a line.
The blocks are those handed to the loop over a batch: when that loop runs to
its end on a batch, the file it wrote reads back as the blocks of the batch. -/
theorem archive_replay_round_trip (d : Deps) (jsonRpcClient : JsonRPC)
    (amqpClient : KoinosRPC) (method : String) (f : File) (startHeight numBlocksPerCall : Nat)
    (fuel : Nat)
    (hinv : ∀ block data, d.marshalBlock block = .ok data → d.unmarshalBlock data = .ok block) :
    (∃ blocks lines, List.Forall₂ (encodes d) blocks lines ∧
      written (generateBlockFile d jsonRpcClient amqpClient method f startHeight
        numBlocksPerCall fuel).events = archive lines ∧
      readEntries d
        ((written (generateBlockFile d jsonRpcClient amqpClient method f startHeight
          numBlocksPerCall fuel).events).length + 1)
        (NewReader (fileBytes (written (generateBlockFile d jsonRpcClient amqpClient method f
          startHeight numBlocksPerCall fuel).events))) = some blocks) ∧
    (∀ (items : List BlockItem) (w : Nat), (saveBlocks d f w items).status = .returned →
      readEntries d ((written (saveBlocks d f w items).events).length + 1)
        (NewReader (fileBytes (written (saveBlocks d f w items).events))) =
        some (items.map fun item => item.Block)) := by
  constructor
  · have hgen : ∃ blocks lines, List.Forall₂ (encodes d) blocks lines ∧
        written (generateBlockFile d jsonRpcClient amqpClient method f startHeight
          numBlocksPerCall fuel).events = archive lines := by
      unfold generateBlockFile
      simp only
      cases herr : (headInfoOf d jsonRpcClient amqpClient method).2 with
      | some e => exact ⟨[], [], List.Forall₂.nil, by simp [written, archive]⟩
      | none =>
        cases hres : (headInfoOf d jsonRpcClient amqpClient method).1 with
        | none => exact ⟨[], [], List.Forall₂.nil, by simp [written, archive]⟩
        | some headInfo =>
          obtain ⟨blocks, lines, hrel, hwr⟩ := generateLoop_written d jsonRpcClient amqpClient
            method f headInfo numBlocksPerCall fuel startHeight 1 0
          exact ⟨blocks, lines, hrel, by simp [written_append, written, hwr]⟩
    obtain ⟨blocks, lines, hrel, hwr⟩ := hgen
    refine ⟨blocks, lines, hrel, hwr, ?_⟩
    rw [hwr]
    exact readEntries_encoded d hinv blocks lines hrel
  · intro items w hs
    obtain ⟨lines, hrel, hwr⟩ := saveBlocks_written_all d f items w hs
    rw [hwr]
    exact readEntries_encoded d hinv _ lines hrel

/-- The instance of `archive_replay_round_trip` at the sample codec: the blocks
of heights 1 and 5000, the second of which makes a line of 6668 characters,
longer than the buffer of the reader, are read back from the file they were
saved to. -/
theorem archive_replay_round_trip_witness :
    readEntries Sample.deps
        ((written (saveBlocks Sample.deps (Sample.file []) 0
          [Sample.itemAt 1, Sample.itemAt 5000]).events).length + 1)
        (NewReader (fileBytes (written (saveBlocks Sample.deps (Sample.file []) 0
          [Sample.itemAt 1, Sample.itemAt 5000]).events))) =
      some [Sample.blockAt 1, Sample.blockAt 5000] :=
  (archive_replay_round_trip Sample.deps (Sample.jsonRpc 25000 none none)
    (NewKoinosRPC (Sample.replying [])) methodDefault (Sample.file []) 1 10000 25000
    Sample.unmarshalBlock_inverts).2 [Sample.itemAt 1, Sample.itemAt 5000] 0
    (saveBlocks_ok Sample.deps (Sample.file []) (fun _ _ => rfl)
      [Sample.itemAt 1, Sample.itemAt 5000] 0 (fun item hitem => by
        simp at hitem
        rcases hitem with h | h <;> subst h <;> exact ⟨_, Sample.marshalBlock_blockAt _⟩)).1

end BlockFile
